import Mathlib

/-!
# Verification of the mindm-mcp framed request/response protocol engine

A shallow embedding, in Lean 4, of the protocol/session core of the
`mindm-mcp` repository:

* the framed channel codec used by `MCPServer._handle_connection` and
  `DirectMCPServer._handle_connection` (4-byte unsigned little-endian
  length header followed by a UTF-8 JSON payload), together with a
  byte-level model of Python's `json.dumps` / `json.loads` restricted to
  JSON values without floats (`Jval` below has exact integers only);
* the request dispatcher `MindManagerMCPPlugin.handle_request` of
  `mindm_mcp/mcp_plugin.py`, with the backend client
  (`MindManagerClient`) abstracted as an oracle giving each call's
  outcome (a returned JSON value or a raised exception message);
* the per-connection read-dispatch-write loop of
  `MCPServer._handle_connection`;
* the TTL session table (modelled from the spec, since
  `cleanup_inactive_sessions` is only imported by `mindm_mcp/main.py`
  and its definition is not among the sources);
* the cycle-guarded mind-map serialization
  `MindManagerDirectPlugin._mindmap_topic_to_dict` of
  `mindm_mcp/direct_integration.py`, over an explicit object heap.

Python strings are modelled as lists of Unicode code points
(`List Nat`); bytes are modelled as `Nat` (the encoder only ever emits
values below 256).
-/

namespace MindmMcp

/-! ## Python strings as code-point lists -/

/-- Code points of a Lean string literal; used to write Python string
constants from the sources. -/
def kc (s : String) : List Nat := s.toList.map Char.toNat

/-! ## Byte-level helpers for the JSON codec -/

/-- JSON whitespace, as in Python's `json` module: space, tab, LF, CR. -/
def isWsB (c : Nat) : Bool := c == 32 || c == 9 || c == 10 || c == 13

/-- ASCII decimal digit. -/
def isDigitB (c : Nat) : Bool := 48 ≤ c && c ≤ 57

/-- Drop leading JSON whitespace. -/
def skipWsB : List Nat → List Nat
  | c :: cs => if isWsB c then skipWsB cs else c :: cs
  | [] => []

/-- Lower-case hexadecimal digit character for a nibble, as emitted by
`json.dumps` in `\uXXXX` escapes. -/
def hexChar (n : Nat) : Nat := if n < 10 then 48 + n else 87 + n

/-- Four lower-case hex digit characters of `n % 65536`, most
significant first. -/
def hex4Chars (n : Nat) : List Nat :=
  [hexChar (n / 4096 % 16), hexChar (n / 256 % 16), hexChar (n / 16 % 16), hexChar (n % 16)]

/-- Value of one hexadecimal digit character (upper or lower case). -/
def hexVal (c : Nat) : Option Nat :=
  if 48 ≤ c ∧ c ≤ 57 then some (c - 48)
  else if 97 ≤ c ∧ c ≤ 102 then some (c - 87)
  else if 65 ≤ c ∧ c ≤ 70 then some (c - 55)
  else none

/-- Value of four hexadecimal digit characters. -/
def hex4Val (a b c d : Nat) : Option Nat := do
  let va ← hexVal a
  let vb ← hexVal b
  let vc ← hexVal c
  let vd ← hexVal d
  return ((va * 16 + vb) * 16 + vc) * 16 + vd

/-! ## JSON values

`Jval` models the Python values that `json.loads` produces and
`json.dumps` consumes, except floats: numbers are exact integers
(floating point is outside the shallow embedding).  Object fields keep
Python's dict insertion order; keys are strings. -/

inductive Jval where
  | null
  | bool (b : Bool)
  | num (n : Int)
  | str (s : List Nat)
  | arr (items : List Jval)
  | obj (fields : List (List Nat × Jval))

/-- Association lookup in a JSON object's field list (Python dict access). -/
def jfind (k : List Nat) : List (List Nat × Jval) → Option Jval
  | [] => none
  | (k2, v) :: fs => if k = k2 then some v else jfind k fs

/-- Python dict item assignment `d[k] = v`: replace the value in place if
the key is present (insertion order is preserved), else append. -/
def dictSet (k : List Nat) (v : Jval) : List (List Nat × Jval) → List (List Nat × Jval)
  | [] => [(k, v)]
  | (k2, w) :: fs => if k = k2 then (k2, v) :: fs else (k2, w) :: dictSet k v fs

/-- Build a Python dict from parsed key/value pairs in order; a repeated
key overwrites the earlier value in place, as `json.loads` does. -/
def dictOfPairs (ps : List (List Nat × Jval)) : List (List Nat × Jval) :=
  ps.foldl (fun acc p => dictSet p.1 p.2 acc) []

/-! ## The serializer: `json.dumps` with default arguments

Defaults in the sources: `ensure_ascii=True` and item/key separators
`", "` and `": "`. -/

/-- Decimal digit characters of `n`, most significant first, driven by a
fuel argument so the definition is structural (kernel-reducible). -/
def natCharsAux : Nat → Nat → List Nat
  | 0, _ => []
  | fuel + 1, n => if n < 10 then [48 + n] else natCharsAux fuel (n / 10) ++ [48 + n % 10]

/-- Decimal digit characters of `n`. -/
def natChars (n : Nat) : List Nat := natCharsAux (n + 1) n

/-- Representation of a Python int, as `json.dumps` writes it. -/
def intChars (n : Int) : List Nat :=
  if n < 0 then 45 :: natChars n.natAbs else natChars n.toNat

/-- `json.dumps` escaping of a single code point under `ensure_ascii`:
the two-character escapes of `ESCAPE_DCT`, `\uXXXX` for the remaining
control characters and for everything outside printable ASCII, with a
surrogate pair for code points above `0xFFFF`. -/
def escChar (c : Nat) : List Nat :=
  if c = 34 then [92, 34]
  else if c = 92 then [92, 92]
  else if c = 8 then [92, 98]
  else if c = 9 then [92, 116]
  else if c = 10 then [92, 110]
  else if c = 12 then [92, 102]
  else if c = 13 then [92, 114]
  else if c < 32 then 92 :: 117 :: hex4Chars c
  else if c < 127 then [c]
  else if c < 65536 then 92 :: 117 :: hex4Chars c
  else 92 :: 117 :: hex4Chars (55296 + (c - 65536) / 1024)
        ++ 92 :: 117 :: hex4Chars (56320 + (c - 65536) % 1024)

/-- A serialized JSON string: quote, escaped code points, quote. -/
def strChars (s : List Nat) : List Nat := 34 :: (s.flatMap escChar ++ [34])

mutual

/-- Byte-level model of `json.dumps(v)` with the default separators
(`", "` between items, `": "` after keys) and `ensure_ascii=True`; the
output is pure ASCII, so its UTF-8 encoding is itself. -/
def dumps : Jval → List Nat
  | .null => [110, 117, 108, 108]
  | .bool true => [116, 114, 117, 101]
  | .bool false => [102, 97, 108, 115, 101]
  | .num n => intChars n
  | .str s => strChars s
  | .arr [] => [91, 93]
  | .arr (x :: xs) => 91 :: (dumpsItems x xs ++ [93])
  | .obj [] => [123, 125]
  | .obj (f :: fs) => 123 :: (dumpsFields f fs ++ [125])
termination_by v => sizeOf v

/-- Array items joined by `", "`. -/
def dumpsItems : Jval → List Jval → List Nat
  | x, [] => dumps x
  | x, y :: ys => dumps x ++ 44 :: 32 :: dumpsItems y ys
termination_by x xs => 1 + sizeOf x + sizeOf xs

/-- Object fields, each `key: value`, joined by `", "`. -/
def dumpsFields : List Nat × Jval → List (List Nat × Jval) → List Nat
  | (k, v), [] => strChars k ++ 58 :: 32 :: dumps v
  | (k, v), f :: fs => (strChars k ++ 58 :: 32 :: dumps v) ++ 44 :: 32 :: dumpsFields f fs
termination_by f fs => 1 + sizeOf f + sizeOf fs

end

/-! ## Well-formedness of JSON values

`json.dumps ∘ json.loads` round-trips exactly for values whose strings
are sequences of Unicode scalar values (what UTF-8 decoding of the wire
bytes can produce) and whose objects have no repeated keys (automatic
for values that were ever Python dicts). -/

/-- A Python string produced by UTF-8 decoding: every code point is a
Unicode scalar value (below `0x110000` and not a surrogate). -/
def validStr (s : List Nat) : Bool :=
  s.all fun c => c < 1114112 && !(55296 ≤ c && c < 57344)

/-- No repeated keys. -/
def keysDistinct : List (List Nat × Jval) → Bool
  | [] => true
  | (k, _) :: fs => (jfind k fs).isNone && keysDistinct fs

mutual

/-- Well-formed JSON value: valid strings throughout and distinct keys
in every object. -/
def validJ : Jval → Bool
  | .null => true
  | .bool _ => true
  | .num _ => true
  | .str s => validStr s
  | .arr xs => validItems xs
  | .obj fs => keysDistinct fs && validFields fs

/-- All items well-formed. -/
def validItems : List Jval → Bool
  | [] => true
  | x :: xs => validJ x && validItems xs

/-- All keys valid strings and all values well-formed. -/
def validFields : List (List Nat × Jval) → Bool
  | [] => true
  | (k, v) :: fs => validStr k && validJ v && validFields fs

end

/-! ## The parser: `json.loads`

A recursive-descent model of Python's `json.loads` on the value grammar
it accepts, restricted to exact numbers: a numeric literal continued by
a fraction or exponent (a float) is rejected rather than approximated,
since floating point is outside this embedding.  String escapes,
surrogate-pair recombination, strictness about raw control characters,
the no-leading-zero rule for numbers, and dict-overwrite semantics for
repeated keys follow the Python implementation. -/

/-- Longest digit run at the front. -/
def takeDigits : List Nat → List Nat × List Nat
  | c :: cs =>
    if isDigitB c then
      let p := takeDigits cs
      (c :: p.1, p.2)
    else ([], c :: cs)
  | [] => ([], [])

/-- Numeric value of a digit-character run. -/
def digitsVal (ds : List Nat) : Nat := ds.foldl (fun a d => a * 10 + (d - 48)) 0

/-- True when a numeric literal may not stop here: a further digit, or a
fraction or exponent marker, would extend it. -/
def isNumCont (c : Nat) : Bool := isDigitB c || c == 46 || c == 101 || c == 69

/-- The simple two-character escapes accepted after a backslash
(`BACKSLASH` in the Python decoder). -/
def simpleEsc (e : Nat) : Option Nat :=
  if e = 34 then some 34
  else if e = 92 then some 92
  else if e = 47 then some 47
  else if e = 98 then some 8
  else if e = 102 then some 12
  else if e = 110 then some 10
  else if e = 114 then some 13
  else if e = 116 then some 9
  else none

/-- Lookahead after a high-surrogate `\uXXXX` escape: a following
`\uXXXX` escape whose value is a low surrogate, if present. -/
def lowSurTail : List Nat → Option (Nat × List Nat)
  | x :: y :: a :: b :: c :: d :: r =>
    if x = 92 ∧ y = 117 then
      match hex4Val a b c d with
      | some m => if 56320 ≤ m ∧ m < 57344 then some (m, r) else none
      | none => none
    else none
  | _ => none

theorem lowSurTail_length {l : List Nat} {m : Nat} {r : List Nat}
    (h : lowSurTail l = some (m, r)) : r.length + 6 = l.length := by
  unfold lowSurTail at h
  split at h
  · split at h
    · split at h
      · split at h
        · cases h
          simp
        · cases h
      · cases h
    · cases h
  · cases h

mutual

/-- Parse the body of a string after the opening quote, undoing
`escChar`: two-character escapes, `\uXXXX`, and recombination of a
high/low surrogate escape pair; raw control characters are rejected
(`strict=True`), any other raw code point is accepted. -/
def parseStr : List Nat → Option (List Nat × List Nat)
  | [] => none
  | c :: r =>
    if c = 34 then some ([], r)
    else if c = 92 then parseEsc r
    else if c < 32 then none
    else (parseStr r).map fun p => (c :: p.1, p.2)
termination_by l => l.length

/-- Decode what follows a backslash. -/
def parseEsc : List Nat → Option (List Nat × List Nat)
  | [] => none
  | e :: r2 =>
    if e = 117 then parseUni r2
    else
      match simpleEsc e with
      | some ch => (parseStr r2).map fun p => (ch :: p.1, p.2)
      | none => none
termination_by l => l.length

/-- Decode the four hex digits of a `\uXXXX` escape, consuming a
following low-surrogate escape when the value is a high surrogate. -/
def parseUni : List Nat → Option (List Nat × List Nat)
  | a :: b :: c1 :: d :: r3 =>
    match hex4Val a b c1 d with
    | none => none
    | some n =>
      if 55296 ≤ n ∧ n < 56320 then
        match hls : lowSurTail r3 with
        | some (m, r4) =>
          (parseStr r4).map fun p =>
            ((65536 + (n - 55296) * 1024 + (m - 56320)) :: p.1, p.2)
        | none => (parseStr r3).map fun p => (n :: p.1, p.2)
      else (parseStr r3).map fun p => (n :: p.1, p.2)
  | _ => none
termination_by l => l.length
decreasing_by all_goals first
  | (simp <;> omega)
  | (have hl := lowSurTail_length hls; simp <;> omega)

end

/-- True when a numeric literal may stop at this remainder. -/
def numStop : List Nat → Bool
  | [] => true
  | c :: _ => !isNumCont c

/-- Parse a numeric literal: optional minus, a digit run without leading
zeros, and no fraction/exponent continuation (floats are out of scope). -/
def parseNum (input : List Nat) : Option (Jval × List Nat) :=
  let p : Bool × List Nat := match input with
    | c :: r => if c = 45 then (true, r) else (false, c :: r)
    | [] => (false, [])
  let ds := takeDigits p.2
  match ds.1 with
  | [] => none
  | d0 :: drest =>
    if d0 = 48 ∧ drest ≠ [] then none
    else if numStop ds.2 then
      some (.num (if p.1 then -(digitsVal (d0 :: drest) : Int) else (digitsVal (d0 :: drest) : Int)), ds.2)
    else none

/-- Expect an exact literal tail (the scanner substring comparisons for
`null`, `true` and `false`). -/
def expectLit (lit : List Nat) (v : Jval) (r : List Nat) : Option (Jval × List Nat) :=
  match lit, r with
  | [], r => some (v, r)
  | _ :: _, [] => none
  | e :: es, c :: r2 => if c = e then expectLit es v r2 else none

mutual

/-- Parse one JSON value at the head of the input (callers have already
skipped whitespace, as Python's scanner does).  Structural on `fuel`. -/
def parseVal : Nat → List Nat → Option (Jval × List Nat)
  | 0, _ => none
  | _ + 1, [] => none
  | fuel + 1, c :: r =>
    if c = 110 then expectLit [117, 108, 108] .null r
    else if c = 116 then expectLit [114, 117, 101] (.bool true) r
    else if c = 102 then expectLit [97, 108, 115, 101] (.bool false) r
    else if c = 34 then (parseStr r).map fun p => (.str p.1, p.2)
    else if c = 91 then parseArrTail fuel (skipWsB r)
    else if c = 123 then parseObjTail fuel (skipWsB r)
    else parseNum (c :: r)
termination_by fuel _ => 3 * fuel
decreasing_by all_goals omega

/-- After `[` and whitespace: empty array or one-or-more items. -/
def parseArrTail : Nat → List Nat → Option (Jval × List Nat)
  | _, [] => none
  | fuel, c2 :: r2 =>
    if c2 = 93 then some (.arr [], r2)
    else (parseItems fuel (c2 :: r2)).map fun p => (.arr p.1, p.2)
termination_by fuel _ => 3 * fuel + 1
decreasing_by all_goals omega

/-- After `{` and whitespace: empty object or one-or-more fields. -/
def parseObjTail : Nat → List Nat → Option (Jval × List Nat)
  | _, [] => none
  | fuel, c2 :: r2 =>
    if c2 = 125 then some (.obj [], r2)
    else (parseFields fuel (c2 :: r2)).map fun p => (.obj (dictOfPairs p.1), p.2)
termination_by fuel _ => 3 * fuel + 1
decreasing_by all_goals omega

/-- One or more comma-separated array items up to the closing bracket. -/
def parseItems : Nat → List Nat → Option (List Jval × List Nat)
  | 0, _ => none
  | fuel + 1, input =>
    match parseVal fuel input with
    | none => none
    | some (v, r) => parseItemsSep fuel v (skipWsB r)
termination_by fuel _ => 3 * fuel
decreasing_by all_goals omega

/-- After one item: `,` continues the item list, `]` closes it. -/
def parseItemsSep : Nat → Jval → List Nat → Option (List Jval × List Nat)
  | _, _, [] => none
  | fuel, v, c :: r2 =>
    if c = 44 then (parseItems fuel (skipWsB r2)).map fun p => (v :: p.1, p.2)
    else if c = 93 then some ([v], r2)
    else none
termination_by fuel _ _ => 3 * fuel + 1
decreasing_by all_goals omega

/-- One or more comma-separated `"key": value` fields up to the closing
brace. -/
def parseFields : Nat → List Nat → Option (List (List Nat × Jval) × List Nat)
  | 0, _ => none
  | _ + 1, [] => none
  | fuel + 1, c0 :: r =>
    if c0 = 34 then
      match parseStr r with
      | none => none
      | some (k, r1) => parseFieldColon fuel k (skipWsB r1)
    else none
termination_by fuel _ => 3 * fuel
decreasing_by all_goals omega

/-- After one key: `:` then the value. -/
def parseFieldColon : Nat → List Nat → List Nat → Option (List (List Nat × Jval) × List Nat)
  | _, _, [] => none
  | fuel, k, c1 :: r2 =>
    if c1 = 58 then
      match parseVal fuel (skipWsB r2) with
      | none => none
      | some (v, r3) => parseFieldSep fuel k v (skipWsB r3)
    else none
termination_by fuel _ _ => 3 * fuel + 2
decreasing_by all_goals omega

/-- After one field: `,` continues the field list, `}` closes it. -/
def parseFieldSep : Nat → List Nat → Jval → List Nat → Option (List (List Nat × Jval) × List Nat)
  | _, _, _, [] => none
  | fuel, k, v, c2 :: r4 =>
    if c2 = 44 then (parseFields fuel (skipWsB r4)).map fun p => ((k, v) :: p.1, p.2)
    else if c2 = 125 then some ([(k, v)], r4)
    else none
termination_by fuel _ _ _ => 3 * fuel + 1
decreasing_by all_goals omega

end

/-- Byte-level model of `json.loads` on a decoded text: parse one value
after leading whitespace and require only whitespace to remain. -/
def loads (s : List Nat) : Option Jval :=
  match parseVal (s.length + 1) (skipWsB s) with
  | some (v, r) => if skipWsB r = [] then some v else none
  | none => none

/-! ## Round-trip: decimal digits -/

theorem natCharsAux_digits (fuel : Nat) : ∀ n, ∀ d ∈ natCharsAux fuel n, isDigitB d = true := by
  induction fuel with
  | zero => intro n d hd; simp [natCharsAux] at hd
  | succ f ih =>
    intro n d hd
    by_cases h : n < 10
    · simp [natCharsAux, h] at hd
      subst hd
      simp [isDigitB]
      omega
    · simp [natCharsAux, h] at hd
      rcases hd with hd | hd
      · exact ih _ _ hd
      · subst hd
        simp [isDigitB]
        omega

theorem natCharsAux_ne_nil (fuel n : Nat) (h : n < fuel) : natCharsAux fuel n ≠ [] := by
  cases fuel with
  | zero => omega
  | succ f =>
    by_cases h10 : n < 10 <;> simp [natCharsAux, h10]

theorem natChars_ne_nil (n : Nat) : natChars n ≠ [] :=
  natCharsAux_ne_nil _ _ (by omega)

theorem natCharsAux_head_pos (fuel : Nat) : ∀ n, 1 ≤ n → n < fuel →
    ∀ d t, natCharsAux fuel n = d :: t → d ≠ 48 := by
  induction fuel with
  | zero => omega
  | succ f ih =>
    intro n h1 hf d t heq
    by_cases h10 : n < 10
    · simp [natCharsAux, h10] at heq
      omega
    · simp [natCharsAux, h10] at heq
      have hne := natCharsAux_ne_nil f (n / 10) (by omega)
      rcases hcons : natCharsAux f (n / 10) with _ | ⟨d2, t2⟩
      · exact absurd hcons hne
      · rw [hcons] at heq
        simp at heq
        exact heq.1 ▸ ih (n / 10) (by omega) (by omega) d2 t2 hcons

/-- Folding the digit accumulator over `natCharsAux fuel n` (for
sufficient fuel) turns `acc` into `acc * 10 ^ digits + n`. -/
theorem foldl_natCharsAux (fuel : Nat) : ∀ n acc, n < fuel →
    (natCharsAux fuel n).foldl (fun a d => a * 10 + (d - 48)) acc
      = acc * 10 ^ (natCharsAux fuel n).length + n := by
  induction fuel with
  | zero => omega
  | succ f ih =>
    intro n acc hf
    by_cases h10 : n < 10
    · simp [natCharsAux, h10]
    · simp only [natCharsAux, if_neg h10, List.foldl_append, List.length_append]
      rw [ih (n / 10) acc (by omega)]
      simp only [List.foldl_cons, List.foldl_nil, List.length_cons, List.length_nil]
      have h1 : 48 + n % 10 - 48 = n % 10 := by omega
      have h2 : n / 10 * 10 + n % 10 = n := by omega
      rw [h1]
      calc (acc * 10 ^ (natCharsAux f (n / 10)).length + n / 10) * 10 + n % 10
          = acc * (10 ^ (natCharsAux f (n / 10)).length * 10) + (n / 10 * 10 + n % 10) := by ring
        _ = acc * 10 ^ ((natCharsAux f (n / 10)).length + (0 + 1)) + n := by
            rw [h2, ← pow_succ]

theorem digitsVal_natChars (n : Nat) : digitsVal (natChars n) = n := by
  have := foldl_natCharsAux (n + 1) n 0 (by omega)
  simpa [digitsVal, natChars] using this

theorem takeDigits_append (ds : List Nat) (hds : ∀ d ∈ ds, isDigitB d = true) (rest : List Nat)
    (hrest : ∀ c t, rest = c :: t → isDigitB c = false) :
    takeDigits (ds ++ rest) = (ds, rest) := by
  induction ds with
  | nil =>
    cases rest with
    | nil => rfl
    | cons c t =>
      have := hrest c t rfl
      simp [takeDigits, this]
  | cons d ds ih =>
    have hd := hds d (by simp)
    have ih2 := ih (fun x hx => hds x (by simp [hx]))
    simp [takeDigits, hd, ih2]

/-! ## Round-trip: strings -/

theorem parseStr_quote (r : List Nat) : parseStr (34 :: r) = some ([], r) := by
  rw [parseStr]
  rfl

theorem parseStr_bslash (r : List Nat) : parseStr (92 :: r) = parseEsc r := by
  rw [parseStr]
  rfl

theorem parseStr_lit (c : Nat) (h1 : c ≠ 34) (h2 : c ≠ 92) (h3 : ¬ c < 32) (r : List Nat) :
    parseStr (c :: r) = (parseStr r).map fun p => (c :: p.1, p.2) := by
  rw [parseStr, if_neg h1, if_neg h2, if_neg h3]

theorem parseEsc_u (r : List Nat) : parseEsc (117 :: r) = parseUni r := by
  rw [parseEsc]
  rfl

theorem parseEsc_simple (e ch : Nat) (he : e ≠ 117) (hs : simpleEsc e = some ch) (r : List Nat) :
    parseEsc (e :: r) = (parseStr r).map fun p => (ch :: p.1, p.2) := by
  rw [parseEsc, if_neg he, hs]

theorem parseUni_plain (a b c1 d : Nat) (r3 : List Nat) (n : Nat) (hv : hex4Val a b c1 d = some n)
    (hn : ¬(55296 ≤ n ∧ n < 56320)) :
    parseUni (a :: b :: c1 :: d :: r3) = (parseStr r3).map fun p => (n :: p.1, p.2) := by
  rw [parseUni, hv]
  simp [hn]

theorem parseUni_pair (a b c1 d : Nat) (r3 : List Nat) (n m : Nat) (r4 : List Nat)
    (hv : hex4Val a b c1 d = some n) (hn : 55296 ≤ n ∧ n < 56320)
    (hls : lowSurTail r3 = some (m, r4)) :
    parseUni (a :: b :: c1 :: d :: r3)
      = (parseStr r4).map fun p => ((65536 + (n - 55296) * 1024 + (m - 56320)) :: p.1, p.2) := by
  rw [parseUni, hv]
  dsimp only
  rw [if_pos hn]
  split
  · rename_i m2 r42 heq
    rw [hls] at heq
    cases heq
    rfl
  · rename_i heq
    rw [hls] at heq
    cases heq

theorem hexVal_hexChar (v : Nat) (h : v < 16) : hexVal (hexChar v) = some v := by
  by_cases h10 : v < 10
  · have hch : hexChar v = 48 + v := by simp [hexChar, h10]
    rw [hch, hexVal, if_pos (by omega)]
    congr 1
    omega
  · have hch : hexChar v = 87 + v := by simp [hexChar, h10]
    rw [hch, hexVal, if_neg (by omega), if_pos (by omega)]
    congr 1
    omega

theorem hex4Val_hex4Chars (n : Nat) (h : n < 65536) :
    hex4Val (hexChar (n / 4096 % 16)) (hexChar (n / 256 % 16))
      (hexChar (n / 16 % 16)) (hexChar (n % 16)) = some n := by
  rw [hex4Val, hexVal_hexChar _ (by omega), hexVal_hexChar _ (by omega),
    hexVal_hexChar _ (by omega), hexVal_hexChar _ (by omega)]
  simp
  omega

/-- `lowSurTail` needs a leading backslash. -/
theorem lowSurTail_not92 (c : Nat) (h : c ≠ 92) (l : List Nat) : lowSurTail (c :: l) = none := by
  rw [lowSurTail.eq_def]
  split
  · rename_i heq
    simp only [List.cons.injEq] at heq
    rw [if_neg]
    intro hcon
    exact h (heq.1 ▸ hcon.1)
  · rfl

/-- `lowSurTail` needs `u` after the backslash. -/
theorem lowSurTail_not117 (x y : Nat) (h : y ≠ 117) (l : List Nat) :
    lowSurTail (x :: y :: l) = none := by
  rw [lowSurTail.eq_def]
  split
  · rename_i heq
    simp only [List.cons.injEq] at heq
    rw [if_neg]
    intro hcon
    exact h (heq.2.1 ▸ hcon.2)
  · rfl

/-- The serialized low-surrogate escape is found by the lookahead. -/
theorem lowSurTail_hit (m2 : Nat) (hm : m2 < 1024) (t : List Nat) :
    lowSurTail ((92 :: 117 :: hex4Chars (56320 + m2)) ++ t) = some (56320 + m2, t) := by
  simp only [hex4Chars, List.cons_append, List.nil_append, lowSurTail]
  rw [hex4Val_hex4Chars _ (by omega)]
  simp
  omega

/-- The serialized surrogate-pair escape of a supplementary-plane code
point starts with a high surrogate, so the lookahead rejects it. -/
theorem lowSurTail_pairHead (q m2 : Nat) (hq : q < 1024) (t : List Nat) :
    lowSurTail ((92 :: 117 :: hex4Chars (55296 + q)
      ++ 92 :: 117 :: hex4Chars (56320 + m2)) ++ t) = none := by
  simp only [hex4Chars, List.cons_append, List.nil_append, List.append_assoc, lowSurTail]
  rw [hex4Val_hex4Chars _ (by omega)]
  simp
  omega

/-- `lowSurTail` finds nothing at the serialization of a non-surrogate
escape or of a literal character. -/
theorem lowSurTail_escChar (c : Nat) (hc : c < 1114112) (hs : ¬(55296 ≤ c ∧ c < 57344))
    (t : List Nat) : lowSurTail (escChar c ++ t) = none := by
  by_cases h34 : c = 34
  · subst h34; exact lowSurTail_not117 92 34 (by omega) t
  by_cases h92 : c = 92
  · subst h92; exact lowSurTail_not117 92 92 (by omega) t
  by_cases h8 : c = 8
  · subst h8; exact lowSurTail_not117 92 98 (by omega) t
  by_cases h9 : c = 9
  · subst h9; exact lowSurTail_not117 92 116 (by omega) t
  by_cases h10 : c = 10
  · subst h10; exact lowSurTail_not117 92 110 (by omega) t
  by_cases h12 : c = 12
  · subst h12; exact lowSurTail_not117 92 102 (by omega) t
  by_cases h13 : c = 13
  · subst h13; exact lowSurTail_not117 92 114 (by omega) t
  by_cases hctl : c < 32
  · have hesc : escChar c = 92 :: 117 :: hex4Chars c := by
      simp [escChar, h34, h92, h8, h9, h10, h12, h13, hctl]
    rw [hesc]
    simp only [hex4Chars, List.cons_append, List.nil_append, lowSurTail]
    rw [hex4Val_hex4Chars c (by omega)]
    simp
    omega
  by_cases hprint : c < 127
  · have hesc : escChar c = [c] := by
      simp [escChar, h34, h92, h8, h9, h10, h12, h13, hctl, hprint]
    rw [hesc]
    exact lowSurTail_not92 c h92 t
  by_cases hbmp : c < 65536
  · have hesc : escChar c = 92 :: 117 :: hex4Chars c := by
      simp [escChar, h34, h92, h8, h9, h10, h12, h13, hctl, hprint, hbmp]
    rw [hesc]
    simp only [hex4Chars, List.cons_append, List.nil_append, lowSurTail]
    rw [hex4Val_hex4Chars c (by omega)]
    simp
    omega
  · have hesc : escChar c = 92 :: 117 :: hex4Chars (55296 + (c - 65536) / 1024)
        ++ 92 :: 117 :: hex4Chars (56320 + (c - 65536) % 1024) := by
      simp [escChar, h34, h92, h8, h9, h10, h12, h13, hctl, hprint, hbmp]
    rw [hesc]
    exact lowSurTail_pairHead _ _ (by omega) t

/-- Parsing a serialized surrogate-pair escape recombines the two
halves into the encoded supplementary-plane code point. -/
theorem parseStr_pair (q m2 : Nat) (hq : q < 1024) (hm : m2 < 1024) (t : List Nat) :
    parseStr ((92 :: 117 :: hex4Chars (55296 + q)
        ++ 92 :: 117 :: hex4Chars (56320 + m2)) ++ t)
      = (parseStr t).map fun p => ((65536 + q * 1024 + m2) :: p.1, p.2) := by
  have hheads : (92 :: 117 :: hex4Chars (55296 + q)
        ++ 92 :: 117 :: hex4Chars (56320 + m2)) ++ t
      = 92 :: 117 :: (hex4Chars (55296 + q)
        ++ ((92 :: 117 :: hex4Chars (56320 + m2)) ++ t)) := by
    simp
  rw [hheads]
  rw [parseStr_bslash, parseEsc_u]
  simp only [hex4Chars, List.cons_append, List.nil_append]
  rw [parseUni_pair _ _ _ _ _ (55296 + q) (56320 + m2) t
    (hex4Val_hex4Chars _ (by omega)) (by omega)
    (by simpa only [hex4Chars, List.cons_append, List.nil_append] using lowSurTail_hit m2 hm t)]
  have hval : 65536 + (55296 + q - 55296) * 1024 + (56320 + m2 - 56320)
      = 65536 + q * 1024 + m2 := by omega
  rw [hval]

/-- Undoing one `escChar`-escaped code point: the parser consumes the
escape and conses the original point. -/
theorem parseStr_escChar (c : Nat) (hc : c < 1114112) (hs : ¬(55296 ≤ c ∧ c < 57344))
    (t : List Nat) (hnext : lowSurTail t = none) :
    parseStr (escChar c ++ t) = (parseStr t).map fun p => (c :: p.1, p.2) := by
  by_cases h34 : c = 34
  · subst h34
    show parseStr (92 :: 34 :: t) = _
    rw [parseStr_bslash, parseEsc_simple 34 34 (by omega) rfl]
  by_cases h92 : c = 92
  · subst h92
    show parseStr (92 :: 92 :: t) = _
    rw [parseStr_bslash, parseEsc_simple 92 92 (by omega) rfl]
  by_cases h8 : c = 8
  · subst h8
    show parseStr (92 :: 98 :: t) = _
    rw [parseStr_bslash, parseEsc_simple 98 8 (by omega) rfl]
  by_cases h9 : c = 9
  · subst h9
    show parseStr (92 :: 116 :: t) = _
    rw [parseStr_bslash, parseEsc_simple 116 9 (by omega) rfl]
  by_cases h10 : c = 10
  · subst h10
    show parseStr (92 :: 110 :: t) = _
    rw [parseStr_bslash, parseEsc_simple 110 10 (by omega) rfl]
  by_cases h12 : c = 12
  · subst h12
    show parseStr (92 :: 102 :: t) = _
    rw [parseStr_bslash, parseEsc_simple 102 12 (by omega) rfl]
  by_cases h13 : c = 13
  · subst h13
    show parseStr (92 :: 114 :: t) = _
    rw [parseStr_bslash, parseEsc_simple 114 13 (by omega) rfl]
  by_cases hctl : c < 32
  · have hesc : escChar c = 92 :: 117 :: hex4Chars c := by
      simp [escChar, h34, h92, h8, h9, h10, h12, h13, hctl]
    rw [hesc]
    simp only [hex4Chars, List.cons_append, List.nil_append]
    rw [parseStr_bslash, parseEsc_u,
      parseUni_plain _ _ _ _ _ c (hex4Val_hex4Chars c (by omega)) (by omega)]
  by_cases hprint : c < 127
  · have hesc : escChar c = [c] := by
      simp [escChar, h34, h92, h8, h9, h10, h12, h13, hctl, hprint]
    rw [hesc]
    show parseStr (c :: t) = _
    rw [parseStr_lit c h34 h92 hctl]
  by_cases hbmp : c < 65536
  · have hesc : escChar c = 92 :: 117 :: hex4Chars c := by
      simp [escChar, h34, h92, h8, h9, h10, h12, h13, hctl, hprint, hbmp]
    rw [hesc]
    simp only [hex4Chars, List.cons_append, List.nil_append]
    rw [parseStr_bslash, parseEsc_u,
      parseUni_plain _ _ _ _ _ c (hex4Val_hex4Chars c (by omega)) (by omega)]
  · have hesc : escChar c = 92 :: 117 :: hex4Chars (55296 + (c - 65536) / 1024)
        ++ 92 :: 117 :: hex4Chars (56320 + (c - 65536) % 1024) := by
      simp [escChar, h34, h92, h8, h9, h10, h12, h13, hctl, hprint, hbmp]
    rw [hesc]
    have hkey := parseStr_pair ((c - 65536) / 1024) ((c - 65536) % 1024)
      (by omega) (by omega) t
    have harg : 65536 + (c - 65536) / 1024 * 1024 + (c - 65536) % 1024 = c := by omega
    rw [harg] at hkey
    exact hkey

/-- Undoing a whole escaped string body up to the closing quote. -/
theorem parseStr_body (s : List Nat) (hv : validStr s = true) (t : List Nat) :
    parseStr (s.flatMap escChar ++ (34 :: t)) = some (s, t) := by
  induction s with
  | nil =>
    simp only [List.flatMap_nil, List.nil_append]
    exact parseStr_quote t
  | cons c s ih =>
    simp only [validStr, List.all_cons, Bool.and_eq_true] at hv
    have hc : c < 1114112 := by
      have h := hv.1
      simp only [Bool.and_eq_true, decide_eq_true_eq] at h
      exact h.1
    have hs : ¬(55296 ≤ c ∧ c < 57344) := by
      have h := hv.1
      simp only [Bool.and_eq_true, Bool.not_eq_true', Bool.and_eq_false_iff,
        decide_eq_true_eq, decide_eq_false_iff_not] at h
      rcases h.2 with h2 | h2 <;> omega
    have ih2 := ih hv.2
    have hnext : lowSurTail (s.flatMap escChar ++ (34 :: t)) = none := by
      cases s with
      | nil =>
        simp only [List.flatMap_nil, List.nil_append]
        exact lowSurTail_not92 34 (by omega) t
      | cons c2 s2 =>
        simp only [List.flatMap_cons, List.append_assoc]
        have hc2 : ¬(55296 ≤ c2 ∧ c2 < 57344) := by
          simp only [validStr, List.all_cons, Bool.and_eq_true] at hv
          have := hv.2.1
          simp at this
          omega
        have hc2b : c2 < 1114112 := by
          simp only [validStr, List.all_cons, Bool.and_eq_true] at hv
          have h := hv.2.1
          simp only [Bool.and_eq_true, decide_eq_true_eq] at h
          exact h.1
        exact lowSurTail_escChar c2 hc2b hc2 _
    simp only [List.flatMap_cons, List.append_assoc]
    rw [parseStr_escChar c hc hs _ (by
      simpa only [List.append_assoc] using hnext), ih2]
    rfl

/-- Parsing a serialized string after its opening quote. -/
theorem parseStr_strChars (s : List Nat) (hv : validStr s = true) (t : List Nat) :
    ∃ r, strChars s ++ t = 34 :: r ∧ parseStr r = some (s, t) := by
  refine ⟨s.flatMap escChar ++ (34 :: t), ?_, parseStr_body s hv t⟩
  simp [strChars]

/-! ## Round-trip: numbers -/

theorem numStop_of_head (c : Nat) (t : List Nat) (h : isNumCont c = false) :
    numStop (c :: t) = true := by simp [numStop, h]

/-- Parsing the serialized form of an integer recovers it, whenever the
following input cannot extend the literal. -/
theorem parseNum_intChars (n : Int) (rest : List Nat) (hrest : numStop rest = true) :
    parseNum (intChars n ++ rest) = some (.num n, rest) := by
  have hrest2 : ∀ c t, rest = c :: t → isDigitB c = false := by
    intro c t he
    subst he
    simp [numStop, isNumCont] at hrest
    simp [hrest.1]
  rcases hcons : natChars n.natAbs with _ | ⟨d0, dt⟩
  · exact absurd hcons (natChars_ne_nil _)
  · have hdig : ∀ d ∈ natChars n.natAbs, isDigitB d = true := natCharsAux_digits _ _
    have htd := takeDigits_append (natChars n.natAbs) hdig rest hrest2
    have hval : digitsVal (d0 :: dt) = n.natAbs := hcons ▸ digitsVal_natChars n.natAbs
    have hlead : ¬(d0 = 48 ∧ dt ≠ []) := by
      rcases Nat.eq_zero_or_pos n.natAbs with h0 | h1
      · rw [h0] at hcons
        simp [natChars, natCharsAux] at hcons
        simp [hcons.2]
      · intro ⟨he, _⟩
        exact natCharsAux_head_pos _ n.natAbs h1 (by omega) d0 dt hcons he
    by_cases hneg : n < 0
    · have hnc : intChars n = 45 :: natChars n.natAbs := by simp [intChars, hneg]
      rw [hnc]
      simp only [parseNum, List.cons_append]
      rw [hcons] at htd
      simp only [List.cons_append] at htd
      simp [hcons, htd, hlead, hrest, hval]
      rw [abs_of_neg hneg, neg_neg]
    · have hnc : intChars n = natChars n.natAbs := by
        simp [intChars, hneg]
        congr 1
        omega
      rw [hnc]
      have hd0 : isDigitB d0 = true := by
        have := natCharsAux_digits (n.natAbs + 1) n.natAbs d0 (by rw [natChars] at hcons; simp [hcons])
        exact this
      have h45 : d0 ≠ 45 := by
        simp [isDigitB] at hd0
        omega
      rw [hcons]
      simp only [parseNum, List.cons_append]
      rw [hcons] at htd
      simp only [List.cons_append] at htd
      simp [h45, htd, hlead, hrest, hval]
      omega

/-! ## Dict semantics -/

theorem jfind_none_iff (k : List Nat) (l : List (List Nat × Jval)) :
    jfind k l = none ↔ ∀ q ∈ l, q.1 ≠ k := by
  induction l with
  | nil => simp [jfind]
  | cons q l ih =>
    by_cases h : k = q.1
    · subst h
      simp only [jfind, if_pos rfl]
      simp
    · rcases q with ⟨k2, v2⟩
      simp only [jfind]
      rw [if_neg h]
      simp only [ih, List.mem_cons]
      constructor
      · intro ha q hq
        rcases hq with hq | hq
        · subst hq
          simp
          intro hcon
          exact h hcon.symm
        · exact ha q hq
      · intro ha q hq
        exact ha q (by simp [hq])

theorem dictSet_append (k : List Nat) (v : Jval) (acc : List (List Nat × Jval))
    (h : jfind k acc = none) : dictSet k v acc = acc ++ [(k, v)] := by
  induction acc with
  | nil => rfl
  | cons q acc ih =>
    rcases q with ⟨k2, v2⟩
    simp only [jfind] at h
    by_cases hk : k = k2
    · rw [if_pos hk] at h
      cases h
    · rw [if_neg hk] at h
      simp only [dictSet, if_neg hk, ih h, List.cons_append]

theorem dictOfPairs_go (ps : List (List Nat × Jval)) :
    ∀ acc, (∀ p ∈ ps, jfind p.1 acc = none) → keysDistinct ps = true →
    ps.foldl (fun a p => dictSet p.1 p.2 a) acc = acc ++ ps := by
  induction ps with
  | nil => simp
  | cons p ps ih =>
    intro acc hacc hd
    rcases p with ⟨k, v⟩
    simp only [keysDistinct, Bool.and_eq_true, Option.isNone_iff_eq_none] at hd
    simp only [List.foldl_cons]
    rw [dictSet_append k v acc (hacc (k, v) (by simp))]
    rw [ih (acc ++ [(k, v)]) ?_ hd.2]
    · simp
    · intro q hq
      rw [jfind_none_iff]
      intro q2 hq2
      rcases List.mem_append.mp hq2 with h2 | h2
      · exact (jfind_none_iff q.1 acc).mp (hacc q (by simp [hq])) q2 h2
      · simp only [List.mem_singleton] at h2
        subst h2
        have hne := (jfind_none_iff k ps).mp hd.1 q hq
        exact fun he => hne he.symm

/-- `json.loads` dict building is the identity on pair lists with
distinct keys. -/
theorem dictOfPairs_distinct (ps : List (List Nat × Jval)) (h : keysDistinct ps = true) :
    dictOfPairs ps = ps := by
  have := dictOfPairs_go ps [] (by simp [jfind]) h
  simpa [dictOfPairs] using this

/-! ## Serialized values: head shape -/

/-- First byte of a serialized value: a value opener, never whitespace,
a separator, or a closing bracket. -/
def headChar (c : Nat) : Prop :=
  c = 110 ∨ c = 116 ∨ c = 102 ∨ c = 34 ∨ c = 91 ∨ c = 123 ∨ c = 45 ∨ isDigitB c = true

theorem intChars_head (n : Int) :
    ∃ c t, intChars n = c :: t ∧ (c = 45 ∨ isDigitB c = true) := by
  rw [intChars]
  by_cases h : n < 0
  · exact ⟨45, natChars n.natAbs, by simp [h], Or.inl rfl⟩
  · rcases hcons : natChars n.toNat with _ | ⟨d, t⟩
    · exact absurd hcons (natChars_ne_nil _)
    · refine ⟨d, t, by simp [h, hcons], Or.inr ?_⟩
      have hdig : ∀ d2 ∈ natChars n.toNat, isDigitB d2 = true :=
        fun d2 hd2 => natCharsAux_digits _ _ d2 hd2
      exact hdig d (by rw [hcons]; simp)

theorem dumps_head (v : Jval) : ∃ c t, dumps v = c :: t ∧ headChar c := by
  cases v with
  | null => exact ⟨110, [117, 108, 108], by rw [dumps], Or.inl rfl⟩
  | bool b =>
    cases b with
    | true => exact ⟨116, [114, 117, 101], by rw [dumps], Or.inr (Or.inl rfl)⟩
    | false => exact ⟨102, [97, 108, 115, 101], by rw [dumps], Or.inr (Or.inr (Or.inl rfl))⟩
  | num n =>
    obtain ⟨c, t, he, hc⟩ := intChars_head n
    refine ⟨c, t, ?_, ?_⟩
    · rw [dumps]; exact he
    · rcases hc with hc | hc
      · exact Or.inr (Or.inr (Or.inr (Or.inr (Or.inr (Or.inr (Or.inl hc))))))
      · exact Or.inr (Or.inr (Or.inr (Or.inr (Or.inr (Or.inr (Or.inr hc))))))
  | str s =>
    refine ⟨34, s.flatMap escChar ++ [34], ?_, by simp [headChar]⟩
    rw [dumps, strChars]
  | arr xs =>
    cases xs with
    | nil => exact ⟨91, [93], by rw [dumps], by simp [headChar]⟩
    | cons x xs => exact ⟨91, dumpsItems x xs ++ [93], by rw [dumps], by simp [headChar]⟩
  | obj fs =>
    cases fs with
    | nil => exact ⟨123, [125], by rw [dumps], by simp [headChar]⟩
    | cons f fs => exact ⟨123, dumpsFields f fs ++ [125], by rw [dumps], by simp [headChar]⟩

theorem headChar_not_ws {c : Nat} (h : headChar c) : isWsB c = false := by
  rcases h with h | h | h | h | h | h | h | h <;>
    first
      | (subst h; rfl)
      | (simp [isDigitB] at h; simp [isWsB]; omega)

theorem headChar_ne (c : Nat) (h : headChar c) : c ≠ 93 ∧ c ≠ 125 ∧ c ≠ 44 := by
  rcases h with h | h | h | h | h | h | h | h <;>
    first
      | (subst h; exact ⟨by omega, by omega, by omega⟩)
      | (simp [isDigitB] at h; exact ⟨by omega, by omega, by omega⟩)

theorem skipWsB_not_ws {c : Nat} (h : isWsB c = false) (r : List Nat) :
    skipWsB (c :: r) = c :: r := by
  simp [skipWsB, h]

theorem skipWsB_space (r : List Nat) : skipWsB (32 :: r) = skipWsB r := by
  simp [skipWsB, isWsB]

/-- After any serialized value, leading whitespace skipping is inert. -/
theorem skipWsB_dumps (v : Jval) (rest : List Nat) :
    skipWsB (dumps v ++ rest) = dumps v ++ rest := by
  obtain ⟨c, t, he, hc⟩ := dumps_head v
  rw [he, List.cons_append]
  exact skipWsB_not_ws (headChar_not_ws hc) _

theorem dumps_length_pos (v : Jval) : 1 ≤ (dumps v).length := by
  obtain ⟨c, t, he, _⟩ := dumps_head v
  simp [he]

/-! ## Parser step lemmas -/

theorem parseVal_nullStep (f : Nat) (r : List Nat) :
    parseVal (f + 1) (110 :: 117 :: 108 :: 108 :: r) = some (.null, r) := by
  rw [parseVal]
  simp [expectLit]

theorem parseVal_trueStep (f : Nat) (r : List Nat) :
    parseVal (f + 1) (116 :: 114 :: 117 :: 101 :: r) = some (.bool true, r) := by
  rw [parseVal]
  simp [expectLit]

theorem parseVal_falseStep (f : Nat) (r : List Nat) :
    parseVal (f + 1) (102 :: 97 :: 108 :: 115 :: 101 :: r) = some (.bool false, r) := by
  rw [parseVal]
  simp [expectLit]

theorem parseVal_quote (f : Nat) (r : List Nat) :
    parseVal (f + 1) (34 :: r) = (parseStr r).map fun p => (.str p.1, p.2) := by
  rw [parseVal]
  simp

theorem parseVal_arrStep (f : Nat) (r : List Nat) :
    parseVal (f + 1) (91 :: r) = parseArrTail f (skipWsB r) := by
  rw [parseVal]
  simp

theorem parseVal_objStep (f : Nat) (r : List Nat) :
    parseVal (f + 1) (123 :: r) = parseObjTail f (skipWsB r) := by
  rw [parseVal]
  simp

theorem parseVal_other (f : Nat) (c : Nat) (r : List Nat)
    (h110 : c ≠ 110) (h116 : c ≠ 116) (h102 : c ≠ 102) (h34 : c ≠ 34)
    (h91 : c ≠ 91) (h123 : c ≠ 123) :
    parseVal (f + 1) (c :: r) = parseNum (c :: r) := by
  rw [parseVal, if_neg h110, if_neg h116, if_neg h102, if_neg h34, if_neg h91, if_neg h123]

/-! ## Round-trip support facts -/

theorem numStop_93 (r : List Nat) : numStop (93 :: r) = true := by
  simp [numStop, isNumCont, isDigitB]

theorem numStop_125 (r : List Nat) : numStop (125 :: r) = true := by
  simp [numStop, isNumCont, isDigitB]

theorem numStop_44 (r : List Nat) : numStop (44 :: r) = true := by
  simp [numStop, isNumCont, isDigitB]

theorem strChars_length (s : List Nat) : (strChars s).length = (s.flatMap escChar).length + 2 := by
  simp [strChars]

theorem dumpsItems_head (x : Jval) (xs : List Jval) :
    ∃ c t, dumpsItems x xs = c :: t ∧ headChar c := by
  obtain ⟨c, t, he, hc⟩ := dumps_head x
  cases xs with
  | nil => exact ⟨c, t, by rw [dumpsItems, he], hc⟩
  | cons y ys =>
    exact ⟨c, t ++ 44 :: 32 :: dumpsItems y ys, by rw [dumpsItems, he, List.cons_append], hc⟩

theorem dumpsFields_head (f : List Nat × Jval) (fs : List (List Nat × Jval)) :
    ∃ t, dumpsFields f fs = 34 :: t := by
  rcases f with ⟨k, v⟩
  cases fs with
  | nil =>
    refine ⟨(k.flatMap escChar ++ [34]) ++ 58 :: 32 :: dumps v, ?_⟩
    rw [dumpsFields, strChars, List.cons_append]
  | cons f2 fs =>
    refine ⟨((k.flatMap escChar ++ [34]) ++ 58 :: 32 :: dumps v) ++ 44 :: 32 :: dumpsFields f2 fs, ?_⟩
    rw [dumpsFields, strChars]
    simp

theorem skipWsB_dumpsItems (x : Jval) (xs : List Jval) (rest : List Nat) :
    skipWsB (dumpsItems x xs ++ rest) = dumpsItems x xs ++ rest := by
  obtain ⟨c, t, he, hc⟩ := dumpsItems_head x xs
  rw [he, List.cons_append]
  exact skipWsB_not_ws (headChar_not_ws hc) _

theorem skipWsB_dumpsFields (f : List Nat × Jval) (fs : List (List Nat × Jval)) (rest : List Nat) :
    skipWsB (dumpsFields f fs ++ rest) = dumpsFields f fs ++ rest := by
  obtain ⟨t, he⟩ := dumpsFields_head f fs
  rw [he, List.cons_append]
  exact skipWsB_not_ws (by simp [isWsB]) _

/-! ## The round-trip: `loads` after `dumps` -/

mutual

theorem rtVal : ∀ (v : Jval) (fuel : Nat) (rest : List Nat),
    validJ v = true → (dumps v).length < fuel → numStop rest = true →
    parseVal fuel (dumps v ++ rest) = some (v, rest)
  | .null, fuel, rest, _, hf, _ => by
      cases fuel with
      | zero => exact absurd hf (Nat.not_lt_zero _)
      | succ f =>
        rw [dumps]
        simp only [List.cons_append, List.nil_append]
        exact parseVal_nullStep f rest
  | .bool true, fuel, rest, _, hf, _ => by
      cases fuel with
      | zero => exact absurd hf (Nat.not_lt_zero _)
      | succ f =>
        rw [dumps]
        simp only [List.cons_append, List.nil_append]
        exact parseVal_trueStep f rest
  | .bool false, fuel, rest, _, hf, _ => by
      cases fuel with
      | zero => exact absurd hf (Nat.not_lt_zero _)
      | succ f =>
        rw [dumps]
        simp only [List.cons_append, List.nil_append]
        exact parseVal_falseStep f rest
  | .num n, fuel, rest, _, hf, hr => by
      cases fuel with
      | zero => exact absurd hf (Nat.not_lt_zero _)
      | succ f =>
        obtain ⟨c, t, he, hc⟩ := intChars_head n
        have hcne : c ≠ 110 ∧ c ≠ 116 ∧ c ≠ 102 ∧ c ≠ 34 ∧ c ≠ 91 ∧ c ≠ 123 := by
          rcases hc with hc | hc
          · subst hc
            exact ⟨by omega, by omega, by omega, by omega, by omega, by omega⟩
          · simp only [isDigitB, Bool.and_eq_true, decide_eq_true_eq] at hc
            exact ⟨by omega, by omega, by omega, by omega, by omega, by omega⟩
        have hdn : dumps (.num n) = intChars n := by rw [dumps]
        rw [hdn, he, List.cons_append,
          parseVal_other f c (t ++ rest) hcne.1 hcne.2.1 hcne.2.2.1 hcne.2.2.2.1
            hcne.2.2.2.2.1 hcne.2.2.2.2.2]
        have hpn := parseNum_intChars n rest hr
        rw [he, List.cons_append] at hpn
        exact hpn
  | .str s, fuel, rest, hv, hf, _ => by
      cases fuel with
      | zero => exact absurd hf (Nat.not_lt_zero _)
      | succ f =>
        have hvs : validStr s = true := by rw [validJ] at hv; exact hv
        have hdn : dumps (.str s) = strChars s := by rw [dumps]
        rw [hdn, strChars]
        simp only [List.cons_append, List.append_assoc, List.singleton_append, List.nil_append]
        rw [parseVal_quote f, parseStr_body s hvs rest]
        rfl
  | .arr [], fuel, rest, _, hf, _ => by
      cases fuel with
      | zero => exact absurd hf (Nat.not_lt_zero _)
      | succ f =>
        have hdn : dumps (.arr []) = [91, 93] := by rw [dumps]
        rw [hdn]
        simp only [List.cons_append, List.nil_append]
        rw [parseVal_arrStep f, skipWsB_not_ws (by rfl) rest, parseArrTail]
        simp
  | .arr (x :: xs), fuel, rest, hv, hf, _ => by
      cases fuel with
      | zero => exact absurd hf (Nat.not_lt_zero _)
      | succ f =>
        have hvi : validItems (x :: xs) = true := by rw [validJ] at hv; exact hv
        have hdn : dumps (.arr (x :: xs)) = 91 :: (dumpsItems x xs ++ [93]) := by rw [dumps]
        have hlen : (dumpsItems x xs).length + 1 < f := by
          rw [hdn] at hf
          simp only [List.length_cons, List.length_append, List.length_singleton] at hf
          omega
        rw [hdn]
        simp only [List.cons_append, List.append_assoc, List.singleton_append, List.nil_append]
        rw [parseVal_arrStep f, skipWsB_dumpsItems x xs (93 :: rest)]
        obtain ⟨c, t, he, hc⟩ := dumpsItems_head x xs
        rw [he, List.cons_append, parseArrTail, if_neg (headChar_ne c hc).1,
          ← List.cons_append, ← he, rtItems x xs f rest hvi hlen]
        rfl
  | .obj [], fuel, rest, _, hf, _ => by
      cases fuel with
      | zero => exact absurd hf (Nat.not_lt_zero _)
      | succ f =>
        have hdn : dumps (.obj []) = [123, 125] := by rw [dumps]
        rw [hdn]
        simp only [List.cons_append, List.nil_append]
        rw [parseVal_objStep f, skipWsB_not_ws (by rfl) rest, parseObjTail]
        simp
  | .obj (f0 :: fs), fuel, rest, hv, hf, _ => by
      cases fuel with
      | zero => exact absurd hf (Nat.not_lt_zero _)
      | succ f =>
        have hv2 : keysDistinct (f0 :: fs) = true ∧ validFields (f0 :: fs) = true := by
          rw [validJ] at hv
          simpa using hv
        have hdn : dumps (.obj (f0 :: fs)) = 123 :: (dumpsFields f0 fs ++ [125]) := by rw [dumps]
        have hlen : (dumpsFields f0 fs).length + 1 < f := by
          rw [hdn] at hf
          simp only [List.length_cons, List.length_append, List.length_singleton] at hf
          omega
        rw [hdn]
        simp only [List.cons_append, List.append_assoc, List.singleton_append, List.nil_append]
        rw [parseVal_objStep f, skipWsB_dumpsFields f0 fs (125 :: rest)]
        obtain ⟨t, he⟩ := dumpsFields_head f0 fs
        rw [he, List.cons_append, parseObjTail, if_neg (by omega : (34 : Nat) ≠ 125),
          ← List.cons_append, ← he, rtFields f0 fs f rest hv2.2 hlen]
        dsimp only [Option.map]
        rw [dictOfPairs_distinct _ hv2.1]
  termination_by v _ _ _ _ _ => sizeOf v

theorem rtItems : ∀ (x : Jval) (xs : List Jval) (fuel : Nat) (rest : List Nat),
    validItems (x :: xs) = true → (dumpsItems x xs).length + 1 < fuel →
    parseItems fuel (dumpsItems x xs ++ 93 :: rest) = some (x :: xs, rest)
  | x, [], fuel, rest, hv, hf => by
      cases fuel with
      | zero => exact absurd hf (Nat.not_lt_zero _)
      | succ f =>
        have hvx : validJ x = true := by
          rw [validItems] at hv
          simp only [Bool.and_eq_true] at hv
          exact hv.1
        have hdi : dumpsItems x [] = dumps x := by rw [dumpsItems]
        rw [hdi] at hf ⊢
        rw [parseItems, rtVal x f (93 :: rest) hvx (by omega) (numStop_93 rest)]
        dsimp only
        rw [skipWsB_not_ws (by rfl) rest, parseItemsSep]
        simp
  | x, y :: ys, fuel, rest, hv, hf => by
      cases fuel with
      | zero => exact absurd hf (Nat.not_lt_zero _)
      | succ f =>
        have hvx : validJ x = true ∧ validItems (y :: ys) = true := by
          rw [validItems] at hv
          simpa using hv
        have hdi : dumpsItems x (y :: ys) = dumps x ++ 44 :: 32 :: dumpsItems y ys := by
          rw [dumpsItems]
        have hlx := dumps_length_pos x
        have hf2 : (dumps x).length + 2 + (dumpsItems y ys).length + 1 < f + 1 := by
          rw [hdi] at hf
          simp only [List.length_append, List.length_cons] at hf
          omega
        rw [hdi]
        simp only [List.cons_append, List.append_assoc]
        rw [parseItems,
          rtVal x f (44 :: 32 :: (dumpsItems y ys ++ 93 :: rest)) hvx.1 (by omega) (numStop_44 _)]
        dsimp only
        rw [skipWsB_not_ws (by rfl) _, parseItemsSep, if_pos rfl, skipWsB_space,
          skipWsB_dumpsItems y ys (93 :: rest),
          rtItems y ys f rest hvx.2 (by omega)]
        rfl
  termination_by x xs _ _ _ _ => 1 + sizeOf x + sizeOf xs

theorem rtFields : ∀ (f0 : List Nat × Jval) (fs : List (List Nat × Jval)) (fuel : Nat)
    (rest : List Nat),
    validFields (f0 :: fs) = true → (dumpsFields f0 fs).length + 1 < fuel →
    parseFields fuel (dumpsFields f0 fs ++ 125 :: rest) = some (f0 :: fs, rest)
  | (k, v), [], fuel, rest, hv, hf => by
      cases fuel with
      | zero => exact absurd hf (Nat.not_lt_zero _)
      | succ f =>
        have hv3 : validStr k = true ∧ validJ v = true := by
          rw [validFields] at hv
          simp only [Bool.and_eq_true] at hv
          exact hv.1
        have hdf : dumpsFields (k, v) [] = strChars k ++ 58 :: 32 :: dumps v := by
          rw [dumpsFields]
        have hlenv : (dumps v).length + (strChars k).length + 2 + 1 < f + 1 := by
          rw [hdf] at hf
          simp only [List.length_append, List.length_cons] at hf
          omega
        have hks := strChars_length k
        obtain ⟨r, hr1, hr2⟩ := parseStr_strChars k hv3.1 (58 :: 32 :: (dumps v ++ 125 :: rest))
        rw [hdf]
        simp only [List.cons_append, List.append_assoc]
        rw [hr1, parseFields, if_pos rfl, hr2]
        dsimp only
        rw [skipWsB_not_ws (by rfl) _, parseFieldColon, if_pos rfl, skipWsB_space,
          skipWsB_dumps v (125 :: rest),
          rtVal v f (125 :: rest) hv3.2 (by omega) (numStop_125 _)]
        dsimp only
        rw [skipWsB_not_ws (by rfl) _, parseFieldSep]
        simp
  | (k, v), f2 :: fs, fuel, rest, hv, hf => by
      cases fuel with
      | zero => exact absurd hf (Nat.not_lt_zero _)
      | succ f =>
        have hv3 : validStr k = true ∧ validJ v = true ∧ validFields (f2 :: fs) = true := by
          rw [validFields] at hv
          simp only [Bool.and_eq_true] at hv
          exact ⟨hv.1.1, hv.1.2, hv.2⟩
        have hdf : dumpsFields (k, v) (f2 :: fs)
            = (strChars k ++ 58 :: 32 :: dumps v) ++ 44 :: 32 :: dumpsFields f2 fs := by
          rw [dumpsFields]
        have hlen : (strChars k).length + (dumps v).length + (dumpsFields f2 fs).length + 4 + 1
            < f + 1 := by
          rw [hdf] at hf
          simp only [List.length_append, List.length_cons] at hf
          omega
        have hks := strChars_length k
        have hlv := dumps_length_pos v
        obtain ⟨r, hr1, hr2⟩ := parseStr_strChars k hv3.1
          (58 :: 32 :: (dumps v ++ 44 :: 32 :: (dumpsFields f2 fs ++ 125 :: rest)))
        rw [hdf]
        simp only [List.cons_append, List.append_assoc]
        rw [hr1, parseFields, if_pos rfl, hr2]
        dsimp only
        rw [skipWsB_not_ws (by rfl) _, parseFieldColon, if_pos rfl, skipWsB_space,
          skipWsB_dumps v _,
          rtVal v f (44 :: 32 :: (dumpsFields f2 fs ++ 125 :: rest)) hv3.2.1 (by omega)
            (numStop_44 _)]
        dsimp only
        rw [skipWsB_not_ws (by rfl) _, parseFieldSep, if_pos rfl, skipWsB_space,
          skipWsB_dumpsFields f2 fs (125 :: rest),
          rtFields f2 fs f rest hv3.2.2 (by omega)]
        rfl
  termination_by f0 fs _ _ _ _ => 1 + sizeOf f0 + sizeOf fs

end

/-- `numStop` accepts the end of input. -/
theorem numStop_nil : numStop [] = true := rfl

/-- **Codec round-trip, text level**: `json.loads` recovers every
well-formed value from its `json.dumps` serialization. -/
theorem loads_dumps (v : Jval) (hv : validJ v = true) : loads (dumps v) = some v := by
  rw [loads]
  have h1 : skipWsB (dumps v) = dumps v := by
    have h2 := skipWsB_dumps v []
    simpa using h2
  rw [h1]
  have h3 := rtVal v ((dumps v).length + 1) [] hv (by omega) numStop_nil
  simp only [List.append_nil] at h3
  rw [h3]
  simp [skipWsB]

/-! ## UTF-8

`str.encode("utf-8")` / `bytes.decode("utf-8")` on the wire payloads.
The serializer output is pure ASCII (`ensure_ascii=True`), for which
both are the identity; the decoder is modelled in full so that decode
failures (which close the connection in `_handle_connection`) are
representable. -/

/-- UTF-8 encoding of one scalar value (1 to 4 bytes). -/
def utf8EncChar (c : Nat) : List Nat :=
  if c < 128 then [c]
  else if c < 2048 then [192 + c / 64, 128 + c % 64]
  else if c < 65536 then [224 + c / 4096, 128 + c / 64 % 64, 128 + c % 64]
  else [240 + c / 262144, 128 + c / 4096 % 64, 128 + c / 64 % 64, 128 + c % 64]

/-- `str.encode("utf-8")`. -/
def utf8Enc (s : List Nat) : List Nat := s.flatMap utf8EncChar

/-- Is this byte a UTF-8 continuation byte? -/
def utf8Cont (b : Nat) : Prop := 128 ≤ b ∧ b < 192

instance (b : Nat) : Decidable (utf8Cont b) := by unfold utf8Cont; infer_instance

mutual

/-- Strict `bytes.decode("utf-8")`: rejects malformed sequences,
overlong encodings, surrogates, and values beyond `0x10FFFF`. -/
def utf8Dec : List Nat → Option (List Nat)
  | [] => some []
  | b :: r =>
    if b < 128 then (utf8Dec r).map (b :: ·)
    else if 194 ≤ b ∧ b ≤ 223 then utf8DecTwo b r
    else if 224 ≤ b ∧ b ≤ 239 then utf8DecThree b r
    else if 240 ≤ b ∧ b ≤ 244 then utf8DecFour b r
    else none
termination_by l => 2 * l.length
decreasing_by all_goals simp <;> omega

/-- Continuation of a 2-byte sequence. -/
def utf8DecTwo (b : Nat) : List Nat → Option (List Nat)
  | b2 :: r2 =>
    if utf8Cont b2 then (utf8Dec r2).map (((b - 192) * 64 + (b2 - 128)) :: ·) else none
  | [] => none
termination_by l => 2 * l.length + 1
decreasing_by all_goals simp <;> omega

/-- Continuation of a 3-byte sequence. -/
def utf8DecThree (b : Nat) : List Nat → Option (List Nat)
  | b2 :: b3 :: r3 =>
    if utf8Cont b2 ∧ utf8Cont b3 ∧ (b = 224 → 160 ≤ b2) ∧ (b = 237 → b2 < 160) then
      (utf8Dec r3).map (((b - 224) * 4096 + (b2 - 128) * 64 + (b3 - 128)) :: ·)
    else none
  | _ => none
termination_by l => 2 * l.length + 1
decreasing_by all_goals simp <;> omega

/-- Continuation of a 4-byte sequence. -/
def utf8DecFour (b : Nat) : List Nat → Option (List Nat)
  | b2 :: b3 :: b4 :: r4 =>
    if utf8Cont b2 ∧ utf8Cont b3 ∧ utf8Cont b4 ∧ (b = 240 → 144 ≤ b2) ∧ (b = 244 → b2 < 144) then
      (utf8Dec r4).map
        (((b - 240) * 262144 + (b2 - 128) * 4096 + (b3 - 128) * 64 + (b4 - 128)) :: ·)
    else none
  | _ => none
termination_by l => 2 * l.length + 1
decreasing_by all_goals simp <;> omega

end

theorem utf8Enc_ascii (s : List Nat) (h : ∀ c ∈ s, c < 128) : utf8Enc s = s := by
  induction s with
  | nil => rfl
  | cons c s ih =>
    have hc := h c (by simp)
    have ih2 := ih fun x hx => h x (by simp [hx])
    simp only [utf8Enc, List.flatMap_cons] at *
    rw [utf8EncChar, if_pos hc, ih2]
    rfl

theorem utf8Dec_ascii (s : List Nat) (h : ∀ c ∈ s, c < 128) : utf8Dec s = some s := by
  induction s with
  | nil => rw [utf8Dec]
  | cons c s ih =>
    have hc := h c (by simp)
    have ih2 := ih fun x hx => h x (by simp [hx])
    rw [utf8Dec, if_pos hc, ih2]
    rfl

/-! ## `dumps` emits pure ASCII -/

theorem hexChar_lt (n : Nat) : hexChar (n % 16) < 128 := by
  rw [hexChar]
  have : n % 16 < 16 := by omega
  split <;> omega

theorem hex4Chars_ascii (n : Nat) : ∀ b ∈ hex4Chars n, b < 128 := by
  intro b hb
  simp only [hex4Chars, List.mem_cons, List.mem_singleton, List.not_mem_nil, or_false] at hb
  rcases hb with hb | hb | hb | hb <;> (subst hb; exact hexChar_lt _)

theorem escChar_ascii (c : Nat) : ∀ b ∈ escChar c, b < 128 := by
  intro b hb
  by_cases h34 : c = 34
  · subst h34; simp [escChar] at hb; omega
  by_cases h92 : c = 92
  · subst h92; simp [escChar] at hb; omega
  by_cases h8 : c = 8
  · subst h8; simp [escChar] at hb; omega
  by_cases h9 : c = 9
  · subst h9; simp [escChar] at hb; omega
  by_cases h10 : c = 10
  · subst h10; simp [escChar] at hb; omega
  by_cases h12 : c = 12
  · subst h12; simp [escChar] at hb; omega
  by_cases h13 : c = 13
  · subst h13; simp [escChar] at hb; omega
  by_cases hctl : c < 32
  · have hesc : escChar c = 92 :: 117 :: hex4Chars c := by
      simp [escChar, h34, h92, h8, h9, h10, h12, h13, hctl]
    rw [hesc] at hb
    simp only [List.mem_cons] at hb
    rcases hb with hb | hb | hb
    · omega
    · omega
    · exact hex4Chars_ascii c b hb
  by_cases hprint : c < 127
  · have hesc : escChar c = [c] := by
      simp [escChar, h34, h92, h8, h9, h10, h12, h13, hctl, hprint]
    rw [hesc] at hb
    simp at hb
    omega
  by_cases hbmp : c < 65536
  · have hesc : escChar c = 92 :: 117 :: hex4Chars c := by
      simp [escChar, h34, h92, h8, h9, h10, h12, h13, hctl, hprint, hbmp]
    rw [hesc] at hb
    simp only [List.mem_cons] at hb
    rcases hb with hb | hb | hb
    · omega
    · omega
    · exact hex4Chars_ascii c b hb
  · have hesc : escChar c = 92 :: 117 :: hex4Chars (55296 + (c - 65536) / 1024)
        ++ 92 :: 117 :: hex4Chars (56320 + (c - 65536) % 1024) := by
      simp [escChar, h34, h92, h8, h9, h10, h12, h13, hctl, hprint, hbmp]
    rw [hesc] at hb
    simp only [List.mem_cons, List.mem_append] at hb
    rcases hb with (hb | hb | hb) | hb | hb | hb <;>
      first
        | omega
        | exact hex4Chars_ascii _ b hb

theorem natChars_ascii (n : Nat) : ∀ b ∈ natChars n, b < 128 := by
  intro b hb
  have := natCharsAux_digits (n + 1) n b hb
  simp [isDigitB] at this
  omega

theorem intChars_ascii (n : Int) : ∀ b ∈ intChars n, b < 128 := by
  intro b hb
  rw [intChars] at hb
  split at hb
  · simp at hb
    rcases hb with hb | hb
    · omega
    · exact natChars_ascii _ b hb
  · exact natChars_ascii _ b hb

theorem strChars_ascii (s : List Nat) : ∀ b ∈ strChars s, b < 128 := by
  intro b hb
  rw [strChars] at hb
  simp only [List.mem_cons, List.mem_append, List.mem_flatMap, List.mem_singleton,
    List.not_mem_nil, or_false] at hb
  rcases hb with hb | ⟨x, hx, hb⟩ | hb
  · omega
  · exact escChar_ascii x b hb
  · omega

mutual

theorem dumps_ascii : ∀ (v : Jval), ∀ b ∈ dumps v, b < 128
  | .null => by intro b hb; rw [dumps] at hb; simp at hb; omega
  | .bool true => by intro b hb; rw [dumps] at hb; simp at hb; omega
  | .bool false => by intro b hb; rw [dumps] at hb; simp at hb; omega
  | .num n => by
      intro b hb
      rw [dumps] at hb
      exact intChars_ascii n b hb
  | .str s => by
      intro b hb
      rw [dumps] at hb
      exact strChars_ascii s b hb
  | .arr [] => by intro b hb; rw [dumps] at hb; simp at hb; omega
  | .arr (x :: xs) => by
      intro b hb
      rw [dumps] at hb
      simp at hb
      rcases hb with hb | hb | hb
      · omega
      · exact dumpsItems_ascii x xs b hb
      · omega
  | .obj [] => by intro b hb; rw [dumps] at hb; simp at hb; omega
  | .obj (f :: fs) => by
      intro b hb
      rw [dumps] at hb
      simp at hb
      rcases hb with hb | hb | hb
      · omega
      · exact dumpsFields_ascii f fs b hb
      · omega
  termination_by v => sizeOf v

theorem dumpsItems_ascii : ∀ (x : Jval) (xs : List Jval), ∀ b ∈ dumpsItems x xs, b < 128
  | x, [] => by
      intro b hb
      rw [dumpsItems] at hb
      exact dumps_ascii x b hb
  | x, y :: ys => by
      intro b hb
      rw [dumpsItems] at hb
      simp at hb
      rcases hb with hb | hb | hb | hb
      · exact dumps_ascii x b hb
      · omega
      · omega
      · exact dumpsItems_ascii y ys b hb
  termination_by x xs => 1 + sizeOf x + sizeOf xs

theorem dumpsFields_ascii : ∀ (f : List Nat × Jval) (fs : List (List Nat × Jval)),
    ∀ b ∈ dumpsFields f fs, b < 128
  | (k, v), [] => by
      intro b hb
      rw [dumpsFields] at hb
      simp at hb
      rcases hb with hb | hb | hb | hb
      · exact strChars_ascii k b hb
      · omega
      · omega
      · exact dumps_ascii v b hb
  | (k, v), f2 :: fs => by
      intro b hb
      rw [dumpsFields] at hb
      simp only [List.mem_cons, List.mem_append] at hb
      rcases hb with (hb | hb | hb | hb) | hb | hb | hb
      · exact strChars_ascii k b hb
      · omega
      · omega
      · exact dumps_ascii v b hb
      · omega
      · omega
      · exact dumpsFields_ascii f2 fs b hb
  termination_by f fs => 1 + sizeOf f + sizeOf fs

end

/-! ## The frame codec

`MCPServer._handle_connection` reads a 4-byte little-endian unsigned
length then exactly that many payload bytes (`readexactly`), and writes
`len(bytes).to_bytes(4, "little")` followed by the bytes
(`int.to_bytes` raises `OverflowError` when the length does not fit in
four bytes, so `writeFrame` is partial). -/

/-- `len(payload).to_bytes(4, byteorder="little", signed=False)`. -/
def leHeader (n : Nat) : List Nat :=
  [n % 256, n / 256 % 256, n / 65536 % 256, n / 16777216 % 256]

/-- `int.from_bytes(b, byteorder="little", signed=False)` on 4 bytes. -/
def leWord (b0 b1 b2 b3 : Nat) : Nat := b0 + 256 * b1 + 65536 * b2 + 16777216 * b3

theorem leWord_leHeader (n : Nat) (h : n < 4294967296) :
    leWord (n % 256) (n / 256 % 256) (n / 65536 % 256) (n / 16777216 % 256) = n := by
  rw [leWord]
  omega

/-- One frame as written by the server: header then payload; `none`
models the `OverflowError` from `to_bytes` on an oversized payload. -/
def writeFrame (payload : List Nat) : Option (List Nat) :=
  if payload.length < 4294967296 then some (leHeader payload.length ++ payload) else none

/-- Result of trying to read one frame from the remaining stream. -/
inductive ReadOutcome where
  | atEof
  | truncated
  | got (payload rest : List Nat)

/-- Reading one frame: `at_eof` first, then `readexactly(4)`, then
`readexactly(L)`; a stream that ends early raises
`IncompleteReadError` (`truncated`). -/
def readFrame : List Nat → ReadOutcome
  | [] => .atEof
  | [_] => .truncated
  | [_, _] => .truncated
  | [_, _, _] => .truncated
  | b0 :: b1 :: b2 :: b3 :: rest =>
    if rest.length < leWord b0 b1 b2 b3 then .truncated
    else .got (rest.take (leWord b0 b1 b2 b3)) (rest.drop (leWord b0 b1 b2 b3))

/-- Reading a written frame yields exactly the payload and leaves any
following bytes untouched: the reader consumes exactly `L` bytes. -/
theorem readFrame_writeFrame (payload extra : List Nat) (h : payload.length < 4294967296) :
    readFrame (leHeader payload.length ++ payload ++ extra) = .got payload extra := by
  rw [leHeader]
  simp only [List.cons_append, List.nil_append]
  rw [readFrame, leWord_leHeader _ h]
  rw [if_neg (by simp)]
  congr 1
  · exact List.take_left ..
  · exact List.drop_left ..

/-! ## The dispatcher: `MindManagerMCPPlugin.handle_request`

The backend HTTP client `MindManagerClient` is an external collaborator:
it is abstracted as an oracle (`ClientBehavior`) recording, for each
method the handlers call, either the JSON value the call returns or the
message of the exception it raises.  Python strings are `List Nat`
(code points); raised exceptions carry their `str(e)` text. -/

/-- A Python string. -/
abbrev PyStr := List Nat

/-- Convenience: a JSON string literal. -/
def jstr (s : String) : Jval := .str (kc s)

/-- Outcome of one backend client call: returned JSON value or raised
exception text. -/
abbrev PyResult := Except PyStr Jval

/-- The oracle for `self.client`: one entry per method used by the
plugin handlers, taking the arguments the handlers pass. -/
structure ClientBehavior where
  getMindmap : PyResult
  createMindmap : Jval → Jval → Jval → PyResult
  addTopic : Jval → Jval → Jval → PyResult
  updateTopic : Jval → Jval → Jval → PyResult
  addRelationship : Jval → Jval → Jval → PyResult
  addTag : Jval → Jval → PyResult
  serializeMindmap : Jval → PyResult

/-- `d.get(k, default)`: raises (`AttributeError`) on non-dicts. -/
def pyGet (d : Jval) (k : PyStr) (default : Jval) : PyResult :=
  match d with
  | .obj fs => .ok ((jfind k fs).getD default)
  | _ => .error (kc "AttributeError: get")

/-- `d[k]`: `KeyError` when the key is absent, `TypeError` on non-dicts. -/
def pyIndex (d : Jval) (k : PyStr) : PyResult :=
  match d with
  | .obj fs =>
    match jfind k fs with
    | some v => .ok v
    | none => .error (kc "KeyError")
  | _ => .error (kc "TypeError: not subscriptable")

/-- Python truthiness of a JSON-decoded value. -/
def truthy : Jval → Bool
  | .null => false
  | .bool b => b
  | .num n => n != 0
  | .str s => !s.isEmpty
  | .arr xs => !xs.isEmpty
  | .obj fs => !fs.isEmpty

/-- `_create_error_response(message)` (the message the code passes is
not always a string: a failed backend result's `error` field is passed
through unchanged). -/
def errResp (m : Jval) : Jval := .obj [(kc "success", .bool false), (kc "error", m)]

mutual

/-- `repr` of a JSON-decoded Python value (strings quoted; string
escaping inside `repr` is not needed by any claim and is modelled as
plain quoting). -/
def pyRepr : Jval → PyStr
  | .str s => 39 :: (s ++ [39])
  | .null => kc "None"
  | .bool true => kc "True"
  | .bool false => kc "False"
  | .num n => intChars n
  | .arr xs => 91 :: (pyReprItems xs ++ [93])
  | .obj fs => 123 :: (pyReprFields fs ++ [125])
termination_by v => sizeOf v

/-- `repr` of list items, joined by `", "`. -/
def pyReprItems : List Jval → PyStr
  | [] => []
  | [x] => pyRepr x
  | x :: xs => pyRepr x ++ 44 :: 32 :: pyReprItems xs
termination_by xs => sizeOf xs

/-- `repr` of dict items, `key: value` joined by `", "`. -/
def pyReprFields : List (PyStr × Jval) → PyStr
  | [] => []
  | [(k, v)] => 39 :: k ++ 39 :: 58 :: 32 :: pyRepr v
  | (k, v) :: fs => (39 :: k ++ 39 :: 58 :: 32 :: pyRepr v) ++ 44 :: 32 :: pyReprFields fs
termination_by fs => sizeOf fs

end

/-- `str()` of a JSON-decoded Python value, as interpolated into
`f"Unknown action: {action}"`. -/
def pyStrOf : Jval → PyStr
  | .null => kc "None"
  | .bool true => kc "True"
  | .bool false => kc "False"
  | .num n => intChars n
  | .str s => s
  | .arr xs => 91 :: (pyReprItems xs ++ [93])
  | .obj fs => 123 :: (pyReprFields fs ++ [125])

/-- The static capability descriptor built by `_build_capabilities`. -/
def capabilities : Jval :=
  .obj [
    (kc "name", jstr "mindmanager"),
    (kc "display_name", jstr "MindManager"),
    (kc "description", jstr "Interact with MindManager to create and modify mind maps"),
    (kc "version", jstr "0.1.0"),
    (kc "actions", .arr [
      .obj [
        (kc "name", jstr "get_mindmap"),
        (kc "description", jstr "Get the current mindmap from MindManager"),
        (kc "parameters", .obj []),
        (kc "returns", .obj [
          (kc "mindmap", .obj [
            (kc "description", jstr "The current mindmap structure"),
            (kc "type", jstr "object")]),
          (kc "max_topic_level", .obj [
            (kc "description", jstr "The maximum topic level in the mindmap"),
            (kc "type", jstr "integer")]),
          (kc "selected_topics", .obj [
            (kc "description", jstr "List of currently selected topics"),
            (kc "type", jstr "array")]),
          (kc "central_topic_selected", .obj [
            (kc "description", jstr "Whether the central topic is selected"),
            (kc "type", jstr "boolean")])])],
      .obj [
        (kc "name", jstr "create_mindmap"),
        (kc "description", jstr "Create a new mindmap"),
        (kc "parameters", .obj [
          (kc "central_topic", .obj [
            (kc "description", jstr "The central topic text"),
            (kc "type", jstr "string"),
            (kc "required", .bool true)]),
          (kc "topics", .obj [
            (kc "description", jstr "List of topics to add"),
            (kc "type", jstr "array"),
            (kc "required", .bool false)]),
          (kc "relationships", .obj [
            (kc "description", jstr "List of relationships between topics"),
            (kc "type", jstr "array"),
            (kc "required", .bool false)])]),
        (kc "returns", .obj [
          (kc "message", .obj [
            (kc "description", jstr "Status message"),
            (kc "type", jstr "string")])])],
      .obj [
        (kc "name", jstr "add_topic"),
        (kc "description", jstr "Add a topic to the mindmap"),
        (kc "parameters", .obj [
          (kc "text", .obj [
            (kc "description", jstr "The topic text"),
            (kc "type", jstr "string"),
            (kc "required", .bool true)]),
          (kc "parent_guid", .obj [
            (kc "description", jstr "GUID of the parent topic"),
            (kc "type", jstr "string"),
            (kc "required", .bool false)]),
          (kc "notes", .obj [
            (kc "description", jstr "Notes for the topic"),
            (kc "type", jstr "string"),
            (kc "required", .bool false)])]),
        (kc "returns", .obj [
          (kc "guid", .obj [
            (kc "description", jstr "GUID of the created topic"),
            (kc "type", jstr "string")]),
          (kc "text", .obj [
            (kc "description", jstr "Text of the created topic"),
            (kc "type", jstr "string")])])],
      .obj [
        (kc "name", jstr "update_topic"),
        (kc "description", jstr "Update an existing topic"),
        (kc "parameters", .obj [
          (kc "guid", .obj [
            (kc "description", jstr "GUID of the topic to update"),
            (kc "type", jstr "string"),
            (kc "required", .bool true)]),
          (kc "text", .obj [
            (kc "description", jstr "New topic text"),
            (kc "type", jstr "string"),
            (kc "required", .bool false)]),
          (kc "notes", .obj [
            (kc "description", jstr "New notes for the topic"),
            (kc "type", jstr "string"),
            (kc "required", .bool false)])]),
        (kc "returns", .obj [
          (kc "message", .obj [
            (kc "description", jstr "Status message"),
            (kc "type", jstr "string")])])],
      .obj [
        (kc "name", jstr "add_relationship"),
        (kc "description", jstr "Add a relationship between topics"),
        (kc "parameters", .obj [
          (kc "guid_1", .obj [
            (kc "description", jstr "GUID of the first topic"),
            (kc "type", jstr "string"),
            (kc "required", .bool true)]),
          (kc "guid_2", .obj [
            (kc "description", jstr "GUID of the second topic"),
            (kc "type", jstr "string"),
            (kc "required", .bool true)]),
          (kc "label", .obj [
            (kc "description", jstr "Label for the relationship"),
            (kc "type", jstr "string"),
            (kc "required", .bool false)])]),
        (kc "returns", .obj [
          (kc "message", .obj [
            (kc "description", jstr "Status message"),
            (kc "type", jstr "string")])])],
      .obj [
        (kc "name", jstr "add_tag"),
        (kc "description", jstr "Add a tag to a topic"),
        (kc "parameters", .obj [
          (kc "topic_guid", .obj [
            (kc "description", jstr "GUID of the topic"),
            (kc "type", jstr "string"),
            (kc "required", .bool true)]),
          (kc "tag_text", .obj [
            (kc "description", jstr "Tag text"),
            (kc "type", jstr "string"),
            (kc "required", .bool true)])]),
        (kc "returns", .obj [
          (kc "message", .obj [
            (kc "description", jstr "Status message"),
            (kc "type", jstr "string")])])],
      .obj [
        (kc "name", jstr "serialize_mindmap"),
        (kc "description", jstr "Serialize the mindmap to a specified format"),
        (kc "parameters", .obj [
          (kc "format_type", .obj [
            (kc "description", jstr "Format to serialize to (mermaid, markdown, json)"),
            (kc "type", jstr "string"),
            (kc "required", .bool false)])]),
        (kc "returns", .obj [
          (kc "format", .obj [
            (kc "description", jstr "The format of the serialized mindmap"),
            (kc "type", jstr "string")]),
          (kc "content", .obj [
            (kc "description", jstr "The serialized mindmap content"),
            (kc "type", jstr "string")])])]])]

/-- The seven dispatchable actions, in the order of the `elif` chain of
`handle_request`. -/
inductive HandlerId where
  | getMindmapH
  | createMindmapH
  | addTopicH
  | updateTopicH
  | addRelationshipH
  | addTagH
  | serializeMindmapH

/-- The shared failure tail of every handler: a client result whose
`success` is falsy is answered with
`_create_error_response(result.get("error", "Unknown error"))`. -/
def clientFailure (result : Jval) : PyResult := do
  let e ← pyGet result (kc "error") (jstr "Unknown error")
  return errResp e

/-- The `try:` body of `_handle_get_mindmap`. -/
def getMindmapBody (cb : ClientBehavior) (_params : Jval) : PyResult := do
  let result ← cb.getMindmap
  let s ← pyIndex result (kc "success")
  if truthy s then
    let d ← pyIndex result (kc "data")
    return .obj [(kc "success", .bool true), (kc "data", d)]
  else clientFailure result

/-- The `try:` body of `_handle_create_mindmap`. -/
def createMindmapBody (cb : ClientBehavior) (params : Jval) : PyResult := do
  let central ← pyGet params (kc "central_topic") (jstr "Central Topic")
  let topics ← pyGet params (kc "topics") (.arr [])
  let rels ← pyGet params (kc "relationships") (.arr [])
  let result ← cb.createMindmap central topics rels
  let s ← pyIndex result (kc "success")
  if truthy s then
    return .obj [(kc "success", .bool true), (kc "message", jstr "Mindmap created successfully")]
  else clientFailure result

/-- The `try:` body of `_handle_add_topic`. -/
def addTopicBody (cb : ClientBehavior) (params : Jval) : PyResult := do
  let text ← pyGet params (kc "text") (jstr "")
  let parent ← pyGet params (kc "parent_guid") .null
  let notes ← pyGet params (kc "notes") .null
  let result ← cb.addTopic text parent notes
  let s ← pyIndex result (kc "success")
  if truthy s then
    let d ← pyGet result (kc "data") (.obj [])
    return .obj [(kc "success", .bool true), (kc "data", d)]
  else clientFailure result

/-- The `try:` body of `_handle_update_topic`. -/
def updateTopicBody (cb : ClientBehavior) (params : Jval) : PyResult := do
  let guid ← pyGet params (kc "guid") (jstr "")
  let text ← pyGet params (kc "text") .null
  let notes ← pyGet params (kc "notes") .null
  if ¬ truthy guid then
    return errResp (jstr "Topic GUID is required")
  let result ← cb.updateTopic guid text notes
  let s ← pyIndex result (kc "success")
  if truthy s then
    return .obj [(kc "success", .bool true), (kc "message", jstr "Topic updated successfully")]
  else clientFailure result

/-- The `try:` body of `_handle_add_relationship`. -/
def addRelationshipBody (cb : ClientBehavior) (params : Jval) : PyResult := do
  let g1 ← pyGet params (kc "guid_1") (jstr "")
  let g2 ← pyGet params (kc "guid_2") (jstr "")
  let label ← pyGet params (kc "label") (jstr "")
  if ¬ truthy g1 ∨ ¬ truthy g2 then
    return errResp (jstr "Both guid_1 and guid_2 are required")
  let result ← cb.addRelationship g1 g2 label
  let s ← pyIndex result (kc "success")
  if truthy s then
    return .obj [(kc "success", .bool true),
      (kc "message", jstr "Relationship added successfully")]
  else clientFailure result

/-- The `try:` body of `_handle_add_tag`. -/
def addTagBody (cb : ClientBehavior) (params : Jval) : PyResult := do
  let tg ← pyGet params (kc "topic_guid") (jstr "")
  let tt ← pyGet params (kc "tag_text") (jstr "")
  if ¬ truthy tg ∨ ¬ truthy tt then
    return errResp (jstr "Both topic_guid and tag_text are required")
  let result ← cb.addTag tg tt
  let s ← pyIndex result (kc "success")
  if truthy s then
    return .obj [(kc "success", .bool true), (kc "message", jstr "Tag added successfully")]
  else clientFailure result

/-- The `try:` body of `_handle_serialize_mindmap`. -/
def serializeMindmapBody (cb : ClientBehavior) (params : Jval) : PyResult := do
  let fmt ← pyGet params (kc "format_type") (jstr "mermaid")
  let result ← cb.serializeMindmap fmt
  let s ← pyIndex result (kc "success")
  if truthy s then
    let d ← pyGet result (kc "data") (.obj [])
    return .obj [(kc "success", .bool true), (kc "data", d)]
  else clientFailure result

/-- The selected handler's `try:` body. -/
def handlerBody : HandlerId → ClientBehavior → Jval → PyResult
  | .getMindmapH => getMindmapBody
  | .createMindmapH => createMindmapBody
  | .addTopicH => addTopicBody
  | .updateTopicH => updateTopicBody
  | .addRelationshipH => addRelationshipBody
  | .addTagH => addTagBody
  | .serializeMindmapH => serializeMindmapBody

/-- Each `_handle_*` wraps its body in `try/except Exception`,
converting a raised exception `e` into
`_create_error_response(f"Error: {str(e)}")`. -/
def runHandler (h : HandlerId) (cb : ClientBehavior) (params : Jval) : Jval :=
  match handlerBody h cb params with
  | .ok r => r
  | .error e => errResp (.str (kc "Error: " ++ e))

/-- The `elif` chain of `handle_request`, comparing the request action
string against each known action in source order. -/
def handlerFor (a : PyStr) : Option HandlerId :=
  if a = kc "get_mindmap" then some .getMindmapH
  else if a = kc "create_mindmap" then some .createMindmapH
  else if a = kc "add_topic" then some .addTopicH
  else if a = kc "update_topic" then some .updateTopicH
  else if a = kc "add_relationship" then some .addRelationshipH
  else if a = kc "add_tag" then some .addTagH
  else if a = kc "serialize_mindmap" then some .serializeMindmapH
  else none

/-- The `try:` body of `handle_request`: extract `action` and `params`,
short-circuit `get_capabilities`, overwrite `params["session_id"]` with
the plugin session id when `params` is a dict, then dispatch. -/
def handleRequestE (cb : ClientBehavior) (sid : Jval) (request : Jval) : PyResult := do
  let action ← pyGet request (kc "action") (jstr "")
  let params ← pyGet request (kc "params") (.obj [])
  match action with
  | .str a =>
    if a = kc "get_capabilities" then
      return .obj [(kc "success", .bool true), (kc "data", capabilities)]
    else
      let params2 := match params with
        | .obj fs => Jval.obj (dictSet (kc "session_id") sid fs)
        | p => p
      match handlerFor a with
      | some h => return runHandler h cb params2
      | none => return errResp (.str (kc "Unknown action: " ++ a))
  | other =>
    return errResp (.str (kc "Unknown action: " ++ pyStrOf other))

/-- `MindManagerMCPPlugin.handle_request`: the dispatch body inside
`try/except Exception`, whose handler answers with
`_create_error_response(f"Error: {str(e)}")`. -/
def handleRequest (cb : ClientBehavior) (sid : Jval) (request : Jval) : Jval :=
  match handleRequestE cb sid request with
  | .ok r => r
  | .error e => errResp (.str (kc "Error: " ++ e))

/-! ## The per-connection loop: `MCPServer._handle_connection`

`MCPServer._handle_connection` (mcp_plugin.py) and
`DirectMCPServer._handle_connection` (direct_integration.py) run the
same read-dispatch-write loop; one model covers both.  The incoming
stream is its byte list; the model returns the response frames written
to the connection, in order, and the way the loop ended. -/

/-- Loop parameters: the plugin dispatch (`handle_request`, total) and
the text `str(e)` of the `json.JSONDecodeError`, a function of the
offending decoded string. -/
structure LoopCfg where
  dispatch : Jval → Jval
  invalidJsonMsg : List Nat → List Nat

/-- How the `while not reader.at_eof()` loop ended.  Each constructor
is a caught-and-logged path of the `try/except/finally` (clean EOF,
`IncompleteReadError`, and the outer `except Exception` reached by a
`UnicodeDecodeError` escaping the inner `try`); every one leads to the
same `finally` block that closes the connection. -/
inductive LoopExit where
  | atEof
  | incompleteRead
  | connFatal
deriving DecidableEq, Repr

/-- `_send_error_response`: frame `json.dumps({"success": False,
"error": message})`; its own `try/except` swallows a failure (an
over-long frame), in which case nothing is written. -/
def sendError (msg : List Nat) : List (List Nat) :=
  match writeFrame (utf8Enc (dumps (.obj [(kc "success", .bool false), (kc "error", .str msg)]))) with
  | some f => [f]
  | none => []

/-- One iteration on a fully read payload: `none` models the
`UnicodeDecodeError` raised outside the inner `try` (connection-fatal);
`some fs` gives the frames written by this iteration, after which the
loop continues (`json.loads` failure → `Invalid JSON: ...` error frame;
response frame too long for `to_bytes(4, ...)` → `OverflowError` caught
by the inner `except Exception` → `Error: ...` error frame). -/
def iterResult (cfg : LoopCfg) (payload : List Nat) : Option (List (List Nat)) :=
  match utf8Dec payload with
  | none => none
  | some cps =>
    match loads cps with
    | none => some (sendError (kc "Invalid JSON: " ++ cfg.invalidJsonMsg cps))
    | some req =>
      match writeFrame (utf8Enc (dumps (cfg.dispatch req))) with
      | some f => some [f]
      | none => some (sendError (kc "Error: int too large to convert"))

theorem readFrame_got_length (input p r : List Nat) (h : readFrame input = .got p r) :
    r.length < input.length := by
  match input with
  | [] => simp [readFrame] at h
  | [_] => simp [readFrame] at h
  | [_, _] => simp [readFrame] at h
  | [_, _, _] => simp [readFrame] at h
  | b0 :: b1 :: b2 :: b3 :: rest =>
    rw [readFrame] at h
    by_cases hl : rest.length < leWord b0 b1 b2 b3
    · rw [if_pos hl] at h; exact absurd h (by simp)
    · rw [if_neg hl] at h
      cases h
      simp only [List.length_drop, List.length_cons]
      omega

/-- The `while not reader.at_eof()` loop: read one frame, handle it,
continue until EOF, truncation, or a connection-fatal error. -/
def connLoop (cfg : LoopCfg) (input : List Nat) : List (List Nat) × LoopExit :=
  match hrf : readFrame input with
  | .atEof => ([], .atEof)
  | .truncated => ([], .incompleteRead)
  | .got payload rest =>
    match iterResult cfg payload with
    | none => ([], .connFatal)
    | some fs =>
      let p := connLoop cfg rest
      (fs ++ p.1, p.2)
termination_by input.length
decreasing_by exact readFrame_got_length input payload rest hrf

theorem connLoop_nil (cfg : LoopCfg) : connLoop cfg [] = ([], .atEof) := by
  rw [connLoop]
  rfl

theorem connLoop_truncated (cfg : LoopCfg) (input : List Nat)
    (h : readFrame input = .truncated) : connLoop cfg input = ([], .incompleteRead) := by
  rw [connLoop]
  split
  · simp_all
  · rfl
  · simp_all

theorem readFrame_short_truncated (partial2 : List Nat) (L : Nat) (h4 : L < 4294967296)
    (hp : partial2.length < L) : readFrame (leHeader L ++ partial2) = .truncated := by
  rw [leHeader]
  simp only [List.cons_append, List.nil_append]
  rw [readFrame, leWord_leHeader _ h4, if_pos hp]

theorem connLoop_got (cfg : LoopCfg) (input payload rest : List Nat)
    (h : readFrame input = .got payload rest) :
    connLoop cfg input =
      match iterResult cfg payload with
      | none => ([], .connFatal)
      | some fs => (fs ++ (connLoop cfg rest).1, (connLoop cfg rest).2) := by
  rw [connLoop]
  split
  · simp_all
  · simp_all
  · rename_i p r hrf
    rw [hrf] at h
    cases h
    rfl

/-- The frame carrying the JSON serialization of `v`. -/
def jframe (v : Jval) : List Nat :=
  leHeader (utf8Enc (dumps v)).length ++ utf8Enc (dumps v)

/-- The frames one well-formed request `v` elicits: the framed
dispatch response, or (if the response serialization overflows the
4-byte prefix) the framed overflow error Response. -/
def respFrames (cfg : LoopCfg) (v : Jval) : List (List Nat) :=
  match writeFrame (utf8Enc (dumps (cfg.dispatch v))) with
  | some f => [f]
  | none => sendError (kc "Error: int too large to convert")

theorem utf8Enc_dumps (v : Jval) : utf8Enc (dumps v) = dumps v :=
  utf8Enc_ascii _ (dumps_ascii v)

theorem iterResult_valid (cfg : LoopCfg) (v : Jval) (hv : validJ v = true) :
    iterResult cfg (utf8Enc (dumps v)) = some (respFrames cfg v) := by
  rw [iterResult, utf8Enc_dumps, utf8Dec_ascii _ (dumps_ascii v)]
  dsimp only
  rw [loads_dumps v hv, respFrames]
  dsimp only
  split
  all_goals rfl

theorem readFrame_jframe (v : Jval) (rest : List Nat)
    (hlen : (dumps v).length < 4294967296) :
    readFrame (jframe v ++ rest) = .got (utf8Enc (dumps v)) rest := by
  rw [jframe, List.append_assoc]
  exact readFrame_writeFrame _ rest (by rw [utf8Enc_dumps]; exact hlen)

/-- Well-formed requests sent back-to-back are answered one by one, in
arrival order, and the loop then sees a clean EOF. -/
theorem connLoop_jframes (cfg : LoopCfg) (vs : List Jval)
    (h : ∀ v ∈ vs, validJ v = true ∧ (dumps v).length < 4294967296) :
    connLoop cfg (vs.map jframe).flatten = ((vs.map (respFrames cfg)).flatten, .atEof) := by
  induction vs with
  | nil => simpa using connLoop_nil cfg
  | cons v vs ih =>
    have hv := h v (by simp)
    simp only [List.map_cons, List.flatten_cons]
    rw [connLoop_got cfg _ (utf8Enc (dumps v)) (vs.map jframe).flatten
      (readFrame_jframe v _ hv.2)]
    rw [iterResult_valid cfg v hv.1]
    rw [ih (fun w hw => h w (by simp [hw]))]

/-! ## Connection tracking and per-connection isolation

`self.clients` is modelled as a list of writer ids; `_handle_connection`
adds the writer on entry and the `finally:` block discards it. -/

/-- `set.add`. -/
def insertClient (w : Nat) (s : List Nat) : List Nat := if w ∈ s then s else w :: s

/-- `set.discard`. -/
def discardClient (w : Nat) (s : List Nat) : List Nat := s.filter (fun x => x ≠ w)

/-- `_handle_connection`: register the writer, run the loop, and in
`finally:` close the connection and discard the writer.  Every path of
the loop ends in one of `LoopExit`'s caught cases, so the result is
total: no exception escapes the connection handler. -/
def handleConnection (cfg : LoopCfg) (clients : List Nat) (w : Nat) (input : List Nat) :
    (List (List Nat) × LoopExit) × List Nat :=
  (connLoop cfg input, discardClient w (insertClient w clients))

theorem handleConnection_clients (cfg : LoopCfg) (clients : List Nat) (w : Nat)
    (input : List Nat) (hw : w ∉ clients) :
    (handleConnection cfg clients w input).2 = clients := by
  rw [handleConnection, insertClient, if_neg hw, discardClient]
  simp only [List.filter_cons]
  rw [if_neg (by simp)]
  exact List.filter_eq_self.mpr (fun x hx => by simp; rintro rfl; exact hw hx)

/-- One independent task per accepted connection: the server maps the
per-connection loop over the connections' input streams. -/
def serverRun (cfg : LoopCfg) (inputs : List (List Nat)) : List (List (List Nat) × LoopExit) :=
  inputs.map (connLoop cfg)

theorem serverRun_isolated (cfg : LoopCfg) (inputs1 inputs2 : List (List Nat)) (j : Nat)
    (h : inputs1[j]? = inputs2[j]?) :
    (serverRun cfg inputs1)[j]? = (serverRun cfg inputs2)[j]? := by
  rw [serverRun, serverRun, List.getElem?_map, List.getElem?_map, h]

/-! ## Session table (spec-modelled)

`main.py` schedules `cleanup_inactive_sessions`, importing it from
`mindm_mcp.server` — but `server.py` no longer defines it (nor a
session table): the cited symbol is absent from the source tree.  The
definitions below are therefore modelled from the spec, not from code. -/

/-- Modelled from the spec: one session's state — backend handle,
creation-time config, and `last_accessed`, a monotonic timestamp
"updated on every successful lookup". -/
structure SessionEntry where
  backendHandle : Nat
  config : Nat
  lastAccessed : Nat
deriving DecidableEq, Repr

/-- Modelled from the spec: the table maps session identifiers to
session state. -/
abbrev SessionTable := List (List Nat × SessionEntry)

/-- Lookup of a session id (first binding). -/
def tblFind (k : List Nat) : SessionTable → Option SessionEntry
  | [] => none
  | (k2, e) :: t => if k2 = k then some e else tblFind k t

/-- Modelled from the spec: `get(session_id)` fails (`SessionNotFound`)
if absent; on success it updates `last_accessed` to the current time
and yields the entry. -/
def tableGet (t : SessionTable) (k : List Nat) (now : Nat) :
    Option (SessionEntry × SessionTable) :=
  match tblFind k t with
  | none => none
  | some e =>
    let e2 := { e with lastAccessed := now }
    some (e2, t.map (fun p => if p.1 = k then (p.1, e2) else p))

/-- Modelled from the spec: `sweep(idle_ttl, now)` removes every
session whose `now - last_accessed > idle_ttl`. -/
def sweep (idleTtl now : Nat) (t : SessionTable) : SessionTable :=
  t.filter (fun p => ¬ now - p.2.lastAccessed > idleTtl)

theorem tblFind_sweep_le (idleTtl now : Nat) (t : SessionTable) (k : List Nat)
    (e : SessionEntry) (h : tblFind k (sweep idleTtl now t) = some e) :
    now - e.lastAccessed ≤ idleTtl := by
  induction t with
  | nil => simp [sweep, tblFind] at h
  | cons p t ih =>
    rw [sweep, List.filter_cons] at h
    by_cases hp : now - p.2.lastAccessed ≤ idleTtl
    · rw [if_pos (by simpa using hp)] at h
      rw [tblFind] at h
      by_cases hk : p.1 = k
      · rw [if_pos hk] at h
        cases h
        exact hp
      · rw [if_neg hk] at h
        exact ih h
    · rw [if_neg (by simpa using hp)] at h
      exact ih h

theorem tblFind_sweep_survives (idleTtl now : Nat) (t : SessionTable) (k : List Nat)
    (e : SessionEntry) (hf : tblFind k t = some e) (hfresh : now - e.lastAccessed ≤ idleTtl) :
    tblFind k (sweep idleTtl now t) = some e := by
  induction t with
  | nil => simp [tblFind] at hf
  | cons p t ih =>
    rw [tblFind] at hf
    by_cases hk : p.1 = k
    · rw [if_pos hk] at hf
      cases hf
      rw [sweep, List.filter_cons, if_pos (by simpa using hfresh), tblFind, if_pos hk]
    · rw [if_neg hk] at hf
      rw [sweep, List.filter_cons]
      by_cases hp : now - p.2.lastAccessed ≤ idleTtl
      · rw [if_pos (by simpa using hp), tblFind, if_neg hk]
        exact ih hf
      · rw [if_neg (by simpa using hp)]
        exact ih hf

theorem tblFind_map_set (t : SessionTable) (k : List Nat) (e0 e2 : SessionEntry)
    (hf : tblFind k t = some e0) :
    tblFind k (t.map (fun p => if p.1 = k then (p.1, e2) else p)) = some e2 := by
  induction t with
  | nil => simp [tblFind] at hf
  | cons p t ih =>
    rw [tblFind] at hf
    by_cases hk : p.1 = k
    · rw [List.map_cons, if_pos hk, tblFind]
      simp only [if_pos hk]
    · rw [List.map_cons, if_neg hk, tblFind, if_neg hk]
      rw [if_neg hk] at hf
      exact ih hf

theorem tableGet_touches (t : SessionTable) (k : List Nat) (now : Nat)
    (e : SessionEntry) (t2 : SessionTable) (h : tableGet t k now = some (e, t2)) :
    e.lastAccessed = now ∧ tblFind k t2 = some e := by
  rw [tableGet] at h
  match hf : tblFind k t with
  | none => rw [hf] at h; exact absurd h (by simp)
  | some e0 =>
    rw [hf] at h
    dsimp only at h
    cases h
    exact ⟨rfl, tblFind_map_set t k e0 _ hf⟩

/-! ## Cycle-guarded topic serialization:
`MindManagerDirectPlugin._mindmap_topic_to_dict`

The in-memory `MindmapTopic` object graph (possibly cyclic through
`subtopics` references) is modelled as a finite heap of topics
addressed by guid; `subtopics` holds guids. -/

/-- A `mindmap.mindmap_topic_link`. -/
structure MindmapLink where
  text : List Nat
  url : List Nat
  guid : List Nat
deriving DecidableEq, Repr

/-- A `mindmap.mindmap_notes`: `text`/`xhtml`, empty = falsy. -/
structure MindmapNotes where
  text : List Nat
  xhtml : List Nat
deriving DecidableEq, Repr

/-- A `mindmap.mindmap_reference`. -/
structure MindmapReference where
  guid_1 : List Nat
  guid_2 : List Nat
  direction : Int
  label : List Nat
deriving DecidableEq, Repr

/-- A `mindmap.mindmap_topic`; `subtopics` are references into the
heap. -/
structure MindmapTopic where
  guid : List Nat
  text : List Nat
  level : Int
  notes : Option MindmapNotes
  links : List MindmapLink
  tags : List (List Nat)
  references : List MindmapReference
  subtopics : List (List Nat)
deriving DecidableEq, Repr

/-- The object heap; a guid resolves to the first topic carrying it. -/
def theap (g : List Nat) (heap : List MindmapTopic) : Option MindmapTopic :=
  heap.find? (fun t => t.guid = g)

/-- Topics of the heap not yet in the visited set: the quantity each
recursive branch strictly shrinks. -/
def unvisitedCount (heap : List MindmapTopic) (visited : List (List Nat)) : Nat :=
  (heap.filter (fun t => !(visited.contains t.guid))).length

theorem filter_mono_length {α : Type} (p q : α → Bool) (l : List α)
    (h : ∀ x ∈ l, p x = true → q x = true) :
    (l.filter p).length ≤ (l.filter q).length := by
  induction l with
  | nil => simp
  | cons x l ih =>
    have ih2 := ih (fun y hy => h y (List.mem_cons_of_mem x hy))
    rw [List.filter_cons, List.filter_cons]
    by_cases hp : p x = true
    · rw [if_pos hp, if_pos (h x (by simp) hp)]
      simpa using ih2
    · rw [if_neg hp]
      by_cases hq : q x = true
      · rw [if_pos hq]
        exact le_trans ih2 (by simp)
      · rw [if_neg hq]
        exact ih2

theorem unvisitedCount_le (heap : List MindmapTopic) (g : List Nat)
    (visited : List (List Nat)) :
    unvisitedCount heap (g :: visited) ≤ unvisitedCount heap visited := by
  apply filter_mono_length
  intro t _ hp
  rw [Bool.not_eq_true'] at hp ⊢
  rw [List.contains_cons] at hp
  revert hp
  cases h1 : visited.contains t.guid
  · simp
  · simp

theorem unvisitedCount_lt (heap : List MindmapTopic) (visited : List (List Nat))
    (t0 : MindmapTopic) (hmem : t0 ∈ heap) (hnv : ¬ visited.contains t0.guid) :
    unvisitedCount heap (t0.guid :: visited) < unvisitedCount heap visited := by
  induction heap with
  | nil => simp at hmem
  | cons t heap ih =>
    have hle := unvisitedCount_le heap t0.guid visited
    rw [unvisitedCount, unvisitedCount] at hle
    rcases List.mem_cons.mp hmem with rfl | hmem2
    · have hf : visited.contains t0.guid = false := by
        revert hnv
        cases visited.contains t0.guid
        · simp
        · simp
      rw [unvisitedCount, unvisitedCount, List.filter_cons, List.filter_cons]
      rw [if_neg (by simp [List.contains_cons]), if_pos (by rw [hf]; rfl)]
      simp only [List.length_cons]
      omega
    · have ih2 := ih hmem2
      rw [unvisitedCount, unvisitedCount] at ih2
      rw [unvisitedCount, unvisitedCount, List.filter_cons, List.filter_cons]
      by_cases hb : (t0.guid :: visited).contains t.guid = true
      · rw [if_neg (by rw [hb]; simp)]
        by_cases hq : visited.contains t.guid = true
        · rw [if_neg (by rw [hq]; simp)]
          exact ih2
        · have hqf : visited.contains t.guid = false := by
            revert hq
            cases visited.contains t.guid
            · simp
            · simp
          rw [if_pos (by rw [hqf]; rfl)]
          simp only [List.length_cons]
          omega
      · have hbf : (t0.guid :: visited).contains t.guid = false := by
          revert hb
          cases (t0.guid :: visited).contains t.guid
          · simp
          · simp
        have hqf : visited.contains t.guid = false := by
          rw [List.contains_cons] at hbf
          revert hbf
          cases visited.contains t.guid
          · simp
          · simp
        rw [if_pos (by rw [hbf]; rfl), if_pos (by rw [hqf]; rfl)]
        simp only [List.length_cons]
        omega

/-- The already-visited short cut of `_mindmap_topic_to_dict`. -/
def minimalDict (t : MindmapTopic) : Jval :=
  .obj [(kc "guid", .str t.guid), (kc "text", .str t.text), (kc "level", .num t.level),
    (kc "visited_reference", .bool true)]

/-- The non-recursive fields of the full dictionary, in insertion
order. -/
def topicFields (t : MindmapTopic) : List (List Nat × Jval) :=
  [(kc "guid", .str t.guid), (kc "text", .str t.text), (kc "level", .num t.level)]
  ++ (match t.notes with
      | none => []
      | some n =>
        if n.text ≠ [] then [(kc "notes", .str n.text)]
        else if n.xhtml ≠ [] then [(kc "notes", .str n.xhtml)]
        else [])
  ++ (if t.links ≠ [] then
        [(kc "links", .arr (t.links.map (fun l => .obj [(kc "text", .str l.text),
          (kc "url", .str l.url), (kc "guid", .str l.guid)])))]
      else [])
  ++ (if t.tags ≠ [] then [(kc "tags", .arr (t.tags.map Jval.str))] else [])
  ++ (if t.references ≠ [] then
        [(kc "references", .arr (t.references.map (fun r => .obj [(kc "guid_1", .str r.guid_1),
          (kc "guid_2", .str r.guid_2), (kc "direction", .num r.direction),
          (kc "label", .str r.label)])))]
      else [])

/-- `_mindmap_topic_to_dict`: the visited set guards the recursion; a
revisited guid yields `minimalDict` without recursing, otherwise each
subtopic is serialized against `visited.copy()` extended with this
topic's guid. -/
def topicToDict (heap : List MindmapTopic) (recursive : Bool) (g : List Nat)
    (visited : List (List Nat)) : Jval :=
  match htf : theap g heap with
  | none => .null
  | some t =>
    if hv : visited.contains t.guid then minimalDict t
    else
      .obj (topicFields t ++
        (if recursive ∧ t.subtopics ≠ [] then
          [(kc "subtopics", .arr (t.subtopics.map
            (fun sg => topicToDict heap recursive sg (t.guid :: visited))))]
        else []))
termination_by unvisitedCount heap visited
decreasing_by
  exact unvisitedCount_lt heap visited t (List.mem_of_find?_eq_some htf)
    (by simpa using hv)

/-! ## Remaining supporting lemmas -/

theorem tblFind_eq_none_of_not_mem (k : List Nat) (t : SessionTable)
    (h : k ∉ t.map Prod.fst) : tblFind k t = none := by
  induction t with
  | nil => rfl
  | cons p t ih =>
    rw [tblFind]
    rw [List.map_cons, List.mem_cons] at h
    push_neg at h
    rw [if_neg (fun he => h.1 he.symm)]
    exact ih h.2

theorem mem_keys_of_mem_keys_filter (t : SessionTable) (q : List Nat × SessionEntry → Bool)
    (k : List Nat) (h : k ∈ (t.filter q).map Prod.fst) : k ∈ t.map Prod.fst := by
  rcases List.mem_map.mp h with ⟨p, hp, hfst⟩
  exact List.mem_map.mpr ⟨p, List.mem_of_mem_filter hp, hfst⟩

theorem tblFind_sweep_evicted (idleTtl now : Nat) (t : SessionTable) (k : List Nat)
    (e : SessionEntry) (hnodup : (t.map Prod.fst).Nodup) (hf : tblFind k t = some e)
    (hidle : now - e.lastAccessed > idleTtl) :
    tblFind k (sweep idleTtl now t) = none := by
  induction t with
  | nil => simp [tblFind] at hf
  | cons p t ih =>
    rw [List.map_cons, List.nodup_cons] at hnodup
    rw [tblFind] at hf
    by_cases hk : p.1 = k
    · rw [if_pos hk] at hf
      cases hf
      rw [sweep, List.filter_cons, if_neg (by simp only [decide_eq_true_eq]; omega)]
      apply tblFind_eq_none_of_not_mem
      intro hmem
      apply hnodup.1
      rw [← hk] at hmem
      exact mem_keys_of_mem_keys_filter t _ p.1 hmem
    · rw [if_neg hk] at hf
      rw [sweep, List.filter_cons]
      by_cases hp : now - p.2.lastAccessed > idleTtl
      · rw [if_neg (by simp only [decide_eq_true_eq]; omega)]
        exact ih hnodup.2 hf
      · rw [if_pos (by simp only [decide_eq_true_eq]; omega), tblFind, if_neg hk]
        exact ih hnodup.2 hf

theorem dictSet_dictSet (k : List Nat) (v w : Jval) (fs : List (List Nat × Jval)) :
    dictSet k v (dictSet k w fs) = dictSet k v fs := by
  induction fs with
  | nil => simp [dictSet]
  | cons p fs ih =>
    match p with
    | (k2, u) =>
      rw [dictSet]
      by_cases hk : k = k2
      · rw [if_pos hk, dictSet, if_pos hk, dictSet, if_pos hk]
      · rw [if_neg hk, dictSet, if_neg hk, dictSet, if_neg hk, ih]

theorem jfind_dictSet (k : List Nat) (v : Jval) (fs : List (List Nat × Jval)) :
    jfind k (dictSet k v fs) = some v := by
  induction fs with
  | nil => simp [dictSet, jfind]
  | cons p fs ih =>
    match p with
    | (k2, u) =>
      rw [dictSet]
      by_cases hk : k = k2
      · rw [if_pos hk, jfind, if_pos hk]
      · rw [if_neg hk, jfind, if_neg hk]
        exact ih

theorem topicToDict_visited (heap : List MindmapTopic) (recursive : Bool) (g : List Nat)
    (visited : List (List Nat)) (t : MindmapTopic) (htf : theap g heap = some t)
    (hv : visited.contains t.guid = true) :
    topicToDict heap recursive g visited = minimalDict t := by
  rw [topicToDict]
  split
  · simp_all
  · rename_i t2 htf2
    rw [htf2] at htf
    cases htf
    rw [dif_pos hv]

theorem topicToDict_new (heap : List MindmapTopic) (recursive : Bool) (g : List Nat)
    (visited : List (List Nat)) (t : MindmapTopic) (htf : theap g heap = some t)
    (hv : ¬ visited.contains t.guid = true) :
    topicToDict heap recursive g visited =
      .obj (topicFields t ++
        (if recursive ∧ t.subtopics ≠ [] then
          [(kc "subtopics", .arr (t.subtopics.map
            (fun sg => topicToDict heap recursive sg (t.guid :: visited))))]
        else [])) := by
  rw [topicToDict]
  split
  · simp_all
  · rename_i t2 htf2
    rw [htf2] at htf
    cases htf
    rw [dif_neg hv]

/-! ## Concrete fixtures for witnesses and counterexamples -/

/-- A backend whose every call raises. -/
def cbStub : ClientBehavior where
  getMindmap := .error (kc "boom")
  createMindmap := fun _ _ _ => .error (kc "boom")
  addTopic := fun _ _ _ => .error (kc "boom")
  updateTopic := fun _ _ _ => .error (kc "boom")
  addRelationship := fun _ _ _ => .error (kc "boom")
  addTag := fun _ _ => .error (kc "boom")
  serializeMindmap := fun _ => .error (kc "boom")

/-- A backend whose calls return normally, but with a failed result
(`success: false`). -/
def cbFail : ClientBehavior where
  getMindmap := .ok (.obj [(kc "success", .bool false), (kc "error", jstr "boom")])
  createMindmap := fun _ _ _ => .ok (.obj [(kc "success", .bool false), (kc "error", jstr "boom")])
  addTopic := fun _ _ _ => .ok (.obj [(kc "success", .bool false), (kc "error", jstr "boom")])
  updateTopic := fun _ _ _ => .ok (.obj [(kc "success", .bool false), (kc "error", jstr "boom")])
  addRelationship := fun _ _ _ => .ok (.obj [(kc "success", .bool false), (kc "error", jstr "boom")])
  addTag := fun _ _ => .ok (.obj [(kc "success", .bool false), (kc "error", jstr "boom")])
  serializeMindmap := fun _ => .ok (.obj [(kc "success", .bool false), (kc "error", jstr "boom")])

/-- A concrete loop configuration. -/
def cfg0 : LoopCfg where
  dispatch := fun _ => .null
  invalidJsonMsg := fun _ => kc "Expecting value"

/-- The action names listed in a capability descriptor's `actions`. -/
def actionNames (j : Jval) : List (List Nat) :=
  match j with
  | .obj fs =>
    match jfind (kc "actions") fs with
    | some (.arr xs) =>
      xs.filterMap (fun x =>
        match x with
        | .obj gs =>
          match jfind (kc "name") gs with
          | some (.str s) => some s
          | _ => none
        | _ => none)
    | _ => []
  | _ => []

/-- A two-topic cyclic graph: `a`'s subtopics hold `b` and vice versa. -/
def tA : MindmapTopic where
  guid := kc "a"
  text := kc "A"
  level := 0
  notes := none
  links := []
  tags := []
  references := []
  subtopics := [kc "b"]

def tB : MindmapTopic where
  guid := kc "b"
  text := kc "B"
  level := 1
  notes := none
  links := []
  tags := []
  references := []
  subtopics := [kc "a"]

def cyclicHeap : List MindmapTopic := [tA, tB]

/-! ## The claims -/

/-- C1.  Frame codec round-trip and length honesty: for every valid
JSON value `v` whose serialization fits the 4-byte prefix, the frame
writer emits the length prefix equal to the exact byte length of the
UTF-8 JSON payload that follows it; a reader that reads exactly that
many bytes after the prefix recovers the payload and leaves any
following bytes untouched (never under- or over-reads); and decoding
the payload (UTF-8 decode then `json.loads`) yields `v` again. -/
theorem c1_frame_roundtrip (v : Jval) (hv : validJ v = true)
    (hlen : (dumps v).length < 4294967296) :
    writeFrame (utf8Enc (dumps v)) = some (jframe v) ∧
    (∀ extra, readFrame (jframe v ++ extra) = .got (utf8Enc (dumps v)) extra) ∧
    (utf8Dec (utf8Enc (dumps v))).bind loads = some v := by
  refine ⟨?_, fun extra => readFrame_jframe v extra hlen, ?_⟩
  · rw [writeFrame, if_pos (by rw [utf8Enc_dumps]; exact hlen), jframe]
  · rw [utf8Enc_dumps, utf8Dec_ascii _ (dumps_ascii v)]
    exact loads_dumps v hv

theorem c1_frame_roundtrip_witness :
    validJ .null = true ∧ (dumps .null).length < 4294967296 ∧
    (utf8Dec (utf8Enc (dumps .null))).bind loads = some .null := by
  have h1 : validJ .null = true := by rw [validJ]
  have h2 : (dumps .null).length < 4294967296 := by rw [dumps]; simp
  exact ⟨h1, h2, (c1_frame_roundtrip .null h1 h2).2.2⟩

/-- C2 (corrected).  Dispatch totality and exception wrapping hold: the
dispatcher always returns exactly one response value — an exception
raised inside `handle_request`'s body is caught and answered with
`{"success": false, "error": "Error: <str(e)>"}`, and an exception
raised inside a handler's body likewise — but the spec's final clause
is wrong: a handler's *normal* return is passed through unchanged, not
wrapped with `success=true` (see the counterexample: a backend failure
makes a handler return a `success=false` response normally). -/
theorem c2_dispatch_totality (cb : ClientBehavior) (sid request params : Jval)
    (h : HandlerId) (e e2 : PyStr) (r : Jval) :
    (handleRequestE cb sid request = .error e →
      handleRequest cb sid request = errResp (.str (kc "Error: " ++ e))) ∧
    (handlerBody h cb params = .error e2 →
      runHandler h cb params = errResp (.str (kc "Error: " ++ e2))) ∧
    (handleRequestE cb sid request = .ok r → handleRequest cb sid request = r) := by
  refine ⟨fun hx => ?_, fun hx => ?_, fun hx => ?_⟩
  · rw [handleRequest, hx]
  · rw [runHandler, hx]
  · rw [handleRequest, hx]

theorem c2_dispatch_totality_witness :
    handleRequest cbStub .null (.num 0) =
      errResp (.str (kc "Error: " ++ kc "AttributeError: get")) ∧
    runHandler .getMindmapH cbStub (.num 0) =
      errResp (.str (kc "Error: " ++ kc "boom")) :=
  ⟨(c2_dispatch_totality cbStub .null (.num 0) (.num 0) .getMindmapH
      (kc "AttributeError: get") (kc "boom") .null).1 rfl,
   (c2_dispatch_totality cbStub .null (.num 0) (.num 0) .getMindmapH
      (kc "AttributeError: get") (kc "boom") .null).2.1 rfl⟩

/-- C2 counterexample: with a backend that returns normally but
unsuccessfully, `_handle_get_mindmap` returns normally (no exception),
yet the dispatched response has `success: false` — refuting "a normal
handler return is wrapped as a Response with success=true". -/
theorem c2_counterexample :
    handleRequestE cbFail .null (.obj [(kc "action", jstr "get_mindmap")]) =
      .ok (.obj [(kc "success", .bool false), (kc "error", jstr "boom")]) ∧
    handleRequest cbFail .null (.obj [(kc "action", jstr "get_mindmap")]) =
      .obj [(kc "success", .bool false), (kc "error", jstr "boom")] := by
  exact ⟨rfl, rfl⟩

/-- C3 (corrected).  What the loop actually does: a truncated frame
(stream closed mid-frame) raises `IncompleteReadError`, which closes
the connection with *no* error frame written; a JSON decode failure is
answered with one `Invalid JSON: ...` error frame after which the loop
*continues* with the remaining input rather than closing. -/
theorem c3_truncation_decode (cfg : LoopCfg) (L : Nat)
    (partial2 payload rest cps : List Nat)
    (hL : L < 4294967296) (hp : partial2.length < L)
    (hpl : payload.length < 4294967296)
    (hdec : utf8Dec payload = some cps) (hbad : loads cps = none) :
    connLoop cfg (leHeader L ++ partial2) = ([], .incompleteRead) ∧
    connLoop cfg (leHeader L ++ partial2) ≠ ([], .atEof) ∧
    connLoop cfg (leHeader payload.length ++ payload ++ rest) =
      (sendError (kc "Invalid JSON: " ++ cfg.invalidJsonMsg cps) ++ (connLoop cfg rest).1,
        (connLoop cfg rest).2) := by
  have h1 := connLoop_truncated cfg _ (readFrame_short_truncated partial2 L hL hp)
  refine ⟨h1, by rw [h1]; simp, ?_⟩
  rw [connLoop_got cfg _ payload rest (readFrame_writeFrame payload rest hpl)]
  rw [iterResult, hdec]
  dsimp only
  rw [hbad]

theorem c3_truncation_decode_witness :
    (100 : Nat) < 4294967296 ∧ (List.replicate 50 0).length < 100 ∧
    ([123] : List Nat).length < 4294967296 ∧
    utf8Dec [123] = some [123] ∧ loads [123] = none ∧
    connLoop cfg0 (leHeader 100 ++ List.replicate 50 0) = ([], .incompleteRead) := by
  have hd : utf8Dec [123] = some [123] := utf8Dec_ascii [123] (by simp)
  have hl : loads [123] = none := by simp [loads, parseVal, parseObjTail, skipWsB, isWsB]
  exact ⟨by norm_num, by simp, by simp, hd, hl,
    (c3_truncation_decode cfg0 100 (List.replicate 50 0) [123] [] [123]
      (by norm_num) (by simp) (by simp) hd hl).1⟩

/-- C3 counterexample: the spec's sentence fails on both sides.  A
frame promising 100 bytes followed by only 50 and EOF elicits *zero*
frames (not "a single error Response frame"); and after a decode
failure (payload `{`) the server goes on to serve the next request on
the same connection (its response frame follows the error frames and
the loop runs to a clean EOF), so the connection is *not* closed by the
decode failure. -/
theorem c3_counterexample :
    connLoop cfg0 (leHeader 100 ++ List.replicate 50 0) = ([], .incompleteRead) ∧
    connLoop cfg0 (leHeader 1 ++ [123] ++ jframe .null) =
      (sendError (kc "Invalid JSON: " ++ cfg0.invalidJsonMsg [123]) ++ [jframe .null],
        .atEof) := by
  refine ⟨connLoop_truncated cfg0 _ (readFrame_short_truncated _ 100 (by norm_num) (by simp)), ?_⟩
  have hnull : validJ .null = true := by rw [validJ]
  have hlen4 : (dumps Jval.null).length < 4294967296 := by rw [dumps]; simp
  have hl : loads [123] = none := by simp [loads, parseVal, parseObjTail, skipWsB, isWsB]
  have h2 : connLoop cfg0 (jframe Jval.null) = ([jframe Jval.null], .atEof) := by
    have h3 := connLoop_got cfg0 (jframe Jval.null ++ []) (utf8Enc (dumps Jval.null)) []
      (readFrame_jframe Jval.null [] hlen4)
    rw [List.append_nil] at h3
    rw [h3, iterResult_valid cfg0 Jval.null hnull]
    dsimp only
    rw [connLoop_nil]
    have hw : writeFrame (utf8Enc (dumps Jval.null)) = some (jframe Jval.null) := by
      rw [writeFrame, if_pos (by rw [utf8Enc_dumps]; exact hlen4), jframe]
    rw [respFrames]
    dsimp only [cfg0]
    rw [hw]
    dsimp only
    simp
  rw [show leHeader 1 ++ [123] ++ jframe Jval.null
      = leHeader ([123] : List Nat).length ++ [123] ++ jframe Jval.null from rfl]
  rw [connLoop_got cfg0 _ [123] (jframe Jval.null) (readFrame_writeFrame [123] _ (by simp))]
  rw [iterResult, utf8Dec_ascii [123] (by simp)]
  dsimp only
  rw [hl]
  dsimp only
  rw [h2]

/-- C4.  Connection-fatal failures are confined: a client promising `L`
bytes but delivering fewer (then EOF) gets its connection closed with
no response frame, the writer is removed from the tracked client set
(leaving it as it was), the loop result is a caught exit (never an
escaping exception), and any other connection's outcome depends only on
its own input stream. -/
theorem c4_isolation (cfg : LoopCfg) (clients : List Nat) (w L : Nat)
    (partial2 : List Nat) (inputs1 inputs2 : List (List Nat)) (j : Nat)
    (hL : L < 4294967296) (hp : partial2.length < L) (hw : w ∉ clients)
    (hsame : inputs1[j]? = inputs2[j]?) :
    handleConnection cfg clients w (leHeader L ++ partial2) =
      (([], .incompleteRead), clients) ∧
    (serverRun cfg inputs1)[j]? = (serverRun cfg inputs2)[j]? := by
  constructor
  · have h1 := connLoop_truncated cfg _ (readFrame_short_truncated partial2 L hL hp)
    have h2 := handleConnection_clients cfg clients w (leHeader L ++ partial2) hw
    rw [handleConnection] at h2 ⊢
    rw [h1]
    rw [Prod.mk.injEq]
    exact ⟨rfl, by simpa using h2⟩
  · exact serverRun_isolated cfg inputs1 inputs2 j hsame

theorem c4_isolation_witness :
    (100 : Nat) < 4294967296 ∧ (List.replicate 50 0).length < 100 ∧ (5 : Nat) ∉ ([] : List Nat) ∧
    handleConnection cfg0 [] 5 (leHeader 100 ++ List.replicate 50 0) =
      (([], .incompleteRead), []) := by
  exact ⟨by norm_num, by simp, by simp,
    (c4_isolation cfg0 [] 5 100 (List.replicate 50 0) [] [] 0
      (by norm_num) (by simp) (by simp) rfl).1⟩

/-- C5.  Unknown-action response: a decoded request whose action string
is neither `get_capabilities` nor in the `elif` chain is answered with
`{"success": false, "error": "Unknown action: <name>"}`; and the loop
serves further requests after any successfully processed frame (the
connection stays open). -/
theorem c5_unknown_action (cb : ClientBehavior) (sid : Jval) (a : PyStr)
    (fs : List (PyStr × Jval)) (cfg : LoopCfg) (payload rest : List Nat)
    (frames : List (List Nat))
    (hnf : handlerFor a = none) (hnc : ¬ a = kc "get_capabilities")
    (hpl : payload.length < 4294967296) (hit : iterResult cfg payload = some frames) :
    handleRequest cb sid (.obj [(kc "action", .str a), (kc "params", .obj fs)]) =
      errResp (.str (kc "Unknown action: " ++ a)) ∧
    connLoop cfg (leHeader payload.length ++ payload ++ rest) =
      (frames ++ (connLoop cfg rest).1, (connLoop cfg rest).2) := by
  constructor
  · rw [handleRequest]
    have hE : handleRequestE cb sid (.obj [(kc "action", .str a), (kc "params", .obj fs)]) =
        if a = kc "get_capabilities" then
          .ok (.obj [(kc "success", .bool true), (kc "data", capabilities)])
        else
          match handlerFor a with
          | some h => .ok (runHandler h cb (Jval.obj (dictSet (kc "session_id") sid fs)))
          | none => .ok (errResp (.str (kc "Unknown action: " ++ a))) := rfl
    rw [hE, if_neg hnc, hnf]
  · rw [connLoop_got cfg _ payload rest (readFrame_writeFrame payload rest hpl), hit]

theorem c5_unknown_action_witness :
    handlerFor (kc "bogus") = none ∧ ¬ kc "bogus" = kc "get_capabilities" ∧
    handleRequest cbStub .null
        (.obj [(kc "action", .str (kc "bogus")), (kc "params", .obj [])]) =
      errResp (.str (kc "Unknown action: " ++ kc "bogus")) := by
  have h1 : handlerFor (kc "bogus") = none := by rfl
  have h2 : ¬ kc "bogus" = kc "get_capabilities" := by simp [kc]
  have hl : loads [123] = none := by simp [loads, parseVal, parseObjTail, skipWsB, isWsB]
  have hit : iterResult cfg0 [123] =
      some (sendError (kc "Invalid JSON: " ++ cfg0.invalidJsonMsg [123])) := by
    rw [iterResult, utf8Dec_ascii [123] (by simp)]
    dsimp only
    rw [hl]
  exact ⟨h1, h2,
    (c5_unknown_action cbStub .null (kc "bogus") [] cfg0 [123] []
      (sendError (kc "Invalid JSON: " ++ cfg0.invalidJsonMsg [123])) h1 h2
      (by simp) hit).1⟩

/-- C6.  `get_capabilities` bypasses the handler table and answers
`success=true` with the static descriptor, whose top-level fields
include name, display_name, description and version; the descriptor's
action list names exactly the dispatchable actions: an action name is
dispatchable iff it appears in the descriptor. -/
theorem c6_capabilities (cb : ClientBehavior) (sid params : Jval) (a : PyStr) :
    handleRequest cb sid (.obj [(kc "action", jstr "get_capabilities"), (kc "params", params)]) =
      .obj [(kc "success", .bool true), (kc "data", capabilities)] ∧
    jfind (kc "name") [(kc "name", jstr "mindmanager")] = some (jstr "mindmanager") ∧
    actionNames capabilities =
      [kc "get_mindmap", kc "create_mindmap", kc "add_topic", kc "update_topic",
        kc "add_relationship", kc "add_tag", kc "serialize_mindmap"] ∧
    ((handlerFor a).isSome = true ↔ a ∈ actionNames capabilities) := by
  refine ⟨rfl, rfl, ?_, ?_⟩
  · rfl
  · rw [show actionNames capabilities =
      [kc "get_mindmap", kc "create_mindmap", kc "add_topic", kc "update_topic",
        kc "add_relationship", kc "add_tag", kc "serialize_mindmap"] from rfl]
    constructor
    · intro h
      rw [handlerFor] at h
      split_ifs at h with h1 h2 h3 h4 h5 h6 h7
      · subst h1; simp
      · subst h2; simp
      · subst h3; simp
      · subst h4; simp
      · subst h5; simp
      · subst h6; simp
      · subst h7; simp
      · simp at h
    · intro h
      simp only [List.mem_cons, List.not_mem_nil, or_false] at h
      rcases h with rfl | rfl | rfl | rfl | rfl | rfl | rfl
      all_goals rfl

/-- C7.  TTL eviction and last-access touch, modelled from the spec
(the sweeper the spec describes — `cleanup_inactive_sessions` — is
imported by `main.py` but absent from `server.py`): after a sweep every
surviving session was accessed within `idle_ttl`, and a session whose
entry is idle longer than `idle_ttl` is absent (distinct ids); a
session looked up before `idle_ttl` elapsed survives the sweep; and a
successful `get` sets the entry's `last_accessed` to the current time
in the resulting table. -/
theorem c7_session_ttl (idleTtl now : Nat) (t t2 : SessionTable)
    (k0 k1 k2 k3 : List Nat) (e0 e1 e2 e3 : SessionEntry)
    (hnodup : (t.map Prod.fst).Nodup)
    (h0 : tblFind k0 t = some e0) (hidle : now - e0.lastAccessed > idleTtl)
    (h1 : tblFind k1 (sweep idleTtl now t) = some e1)
    (h2 : tblFind k2 t = some e2) (hfresh : now - e2.lastAccessed ≤ idleTtl)
    (h3 : tableGet t k3 now = some (e3, t2)) :
    tblFind k0 (sweep idleTtl now t) = none ∧
    now - e1.lastAccessed ≤ idleTtl ∧
    tblFind k2 (sweep idleTtl now t) = some e2 ∧
    e3.lastAccessed = now ∧ tblFind k3 t2 = some e3 :=
  ⟨tblFind_sweep_evicted idleTtl now t k0 e0 hnodup h0 hidle,
   tblFind_sweep_le idleTtl now t k1 e1 h1,
   tblFind_sweep_survives idleTtl now t k2 e2 h2 hfresh,
   (tableGet_touches t k3 now e3 t2 h3).1,
   (tableGet_touches t k3 now e3 t2 h3).2⟩

theorem c7_session_ttl_witness :
    tblFind (kc "s1") (sweep 50 100 [(kc "s1", ⟨7, 0, 0⟩), (kc "s2", ⟨8, 0, 90⟩)]) = none ∧
    tblFind (kc "s2") (sweep 50 100 [(kc "s1", ⟨7, 0, 0⟩), (kc "s2", ⟨8, 0, 90⟩)]) =
      some ⟨8, 0, 90⟩ ∧
    tableGet [(kc "s1", ⟨7, 0, 0⟩), (kc "s2", ⟨8, 0, 90⟩)] (kc "s2") 100 =
      some (⟨8, 0, 100⟩, [(kc "s1", ⟨7, 0, 0⟩), (kc "s2", ⟨8, 0, 100⟩)]) := by
  have h := c7_session_ttl 50 100
    [(kc "s1", ⟨7, 0, 0⟩), (kc "s2", ⟨8, 0, 90⟩)]
    [(kc "s1", ⟨7, 0, 0⟩), (kc "s2", ⟨8, 0, 100⟩)]
    (kc "s1") (kc "s2") (kc "s2") (kc "s2")
    ⟨7, 0, 0⟩ ⟨8, 0, 90⟩ ⟨8, 0, 90⟩ ⟨8, 0, 100⟩
    (by simp [kc]) rfl (by norm_num) (by rfl) rfl (by norm_num) (by rfl)
  exact ⟨h.1, h.2.2.1, by rfl⟩

/-- C8.  Same-connection ordering: for any sequence of well-formed
requests sent back-to-back on one connection, the loop reads, processes
and answers them strictly in arrival order — the written frames are the
per-request response frames concatenated in the requests' order, each
produced before the next request is read — and the loop then sees a
clean EOF. -/
theorem c8_ordering (cfg : LoopCfg) (vs : List Jval)
    (h : ∀ v ∈ vs, validJ v = true ∧ (dumps v).length < 4294967296) :
    connLoop cfg (vs.map jframe).flatten =
      ((vs.map (respFrames cfg)).flatten, .atEof) :=
  connLoop_jframes cfg vs h

theorem c8_ordering_witness :
    (∀ v ∈ [Jval.null, Jval.bool true], validJ v = true ∧ (dumps v).length < 4294967296) ∧
    connLoop cfg0 ([Jval.null, Jval.bool true].map jframe).flatten =
      (([Jval.null, Jval.bool true].map (respFrames cfg0)).flatten, .atEof) := by
  have h : ∀ v ∈ [Jval.null, Jval.bool true], validJ v = true ∧ (dumps v).length < 4294967296 := by
    intro v hv
    simp only [List.mem_cons, List.not_mem_nil, or_false] at hv
    rcases hv with rfl | rfl
    · exact ⟨by rw [validJ], by rw [dumps]; simp⟩
    · exact ⟨by rw [validJ], by rw [dumps]; simp⟩
  exact ⟨h, c8_ordering cfg0 [Jval.null, Jval.bool true] h⟩

/-- C9.  Client-supplied `session_id` is ignored: for a request whose
params field is a JSON object, the dispatcher overwrites
`params["session_id"]` with the plugin's own session id before
dispatching (the dispatched params bind `session_id` to it), so two
requests differing only in the client-supplied `session_id` value get
identical responses. -/
theorem c9_session_id (cb : ClientBehavior) (sid : Jval) (a : PyStr)
    (fs : List (PyStr × Jval)) (w1 w2 : Jval) :
    jfind (kc "session_id") (dictSet (kc "session_id") sid fs) = some sid ∧
    handleRequest cb sid
        (.obj [(kc "action", .str a), (kc "params", .obj (dictSet (kc "session_id") w1 fs))]) =
      handleRequest cb sid
        (.obj [(kc "action", .str a), (kc "params", .obj (dictSet (kc "session_id") w2 fs))]) := by
  refine ⟨jfind_dictSet (kc "session_id") sid fs, ?_⟩
  have hE : ∀ w : Jval,
      handleRequestE cb sid
          (.obj [(kc "action", .str a), (kc "params", .obj (dictSet (kc "session_id") w fs))]) =
        if a = kc "get_capabilities" then
          .ok (.obj [(kc "success", .bool true), (kc "data", capabilities)])
        else
          match handlerFor a with
          | some h => .ok (runHandler h cb
              (Jval.obj (dictSet (kc "session_id") sid (dictSet (kc "session_id") w fs))))
          | none => .ok (errResp (.str (kc "Unknown action: " ++ a))) := fun w => rfl
  rw [handleRequest, handleRequest, hE w1, hE w2,
    dictSet_dictSet (kc "session_id") sid w1 fs, dictSet_dictSet (kc "session_id") sid w2 fs]

/-- C10.  Cycle-guarded serialization terminates: `_mindmap_topic_to_dict`
is a total function of the (possibly cyclic) topic graph — each
recursive branch's visited set strictly grows within the finite heap —
and reaching a topic whose guid is already in the visited set returns
the minimal dictionary `{guid, text, level, visited_reference: true}`
without recursing into its subtopics; on the concrete two-topic cycle
`a ⇄ b` the expansion closes off with that minimal dictionary. -/
theorem c10_cycle_guard (heap : List MindmapTopic) (recursive : Bool) (g : List Nat)
    (visited : List (List Nat)) (t : MindmapTopic)
    (htf : theap g heap = some t) (hv : visited.contains t.guid = true) :
    topicToDict heap recursive g visited =
      .obj [(kc "guid", .str t.guid), (kc "text", .str t.text), (kc "level", .num t.level),
        (kc "visited_reference", .bool true)] ∧
    topicToDict cyclicHeap true (kc "a") [] =
      .obj (topicFields tA ++ [(kc "subtopics", .arr
        [.obj (topicFields tB ++ [(kc "subtopics", .arr [minimalDict tA])])])]) := by
  refine ⟨topicToDict_visited heap recursive g visited t htf hv, ?_⟩
  have s2 : topicToDict cyclicHeap true (kc "a") [kc "b", kc "a"] = minimalDict tA :=
    topicToDict_visited cyclicHeap true (kc "a") [kc "b", kc "a"] tA rfl (by decide)
  have s1 : topicToDict cyclicHeap true (kc "b") [kc "a"] =
      .obj (topicFields tB ++ [(kc "subtopics", .arr [minimalDict tA])]) := by
    rw [topicToDict_new cyclicHeap true (kc "b") [kc "a"] tB rfl (by decide)]
    rw [if_pos ⟨rfl, by simp [tB]⟩]
    dsimp only [tB]
    simp only [List.map_cons, List.map_nil]
    rw [s2]
  rw [topicToDict_new cyclicHeap true (kc "a") [] tA rfl (by simp)]
  rw [if_pos ⟨rfl, by simp [tA]⟩]
  dsimp only [tA]
  simp only [List.map_cons, List.map_nil]
  rw [s1]
  rfl

theorem c10_cycle_guard_witness :
    theap (kc "a") cyclicHeap = some tA ∧
    ([kc "a"] : List (List Nat)).contains tA.guid = true ∧
    topicToDict cyclicHeap true (kc "a") [kc "a"] =
      .obj [(kc "guid", .str tA.guid), (kc "text", .str tA.text), (kc "level", .num tA.level),
        (kc "visited_reference", .bool true)] := by
  have h1 : theap (kc "a") cyclicHeap = some tA := rfl
  have h2 : ([kc "a"] : List (List Nat)).contains tA.guid = true := by rfl
  exact ⟨h1, h2, (c10_cycle_guard cyclicHeap true (kc "a") [kc "a"] tA h1 h2).1⟩

end MindmMcp
